import Mathlib

/-! RingBuffer: a shallow embedding of `RingBuffer.c` / `RingBuffer.h`

The C functions are embedded as pure functions on an explicit state.

* Machine integers are natural numbers.  The `uint8_t` parameters are taken as
  `Nat`; theorems that depend on their range assume `< 256`.  Conversions that
  can truncate are written out: `% 65536` for the `uint16_t` index temporaries
  and `% 2 ^ 32` for the `uint32_t` byte offset.  `int` is taken to be 32 bits
  wide, so the products handed to `malloc` and `memset` are exact.
* A pointer field of the handle is a `ptr_t`: `NULL`, a live heap block together
  with its cells, or a non-null address whose block has been released.  The two
  index blocks hold `uint16_t` cells, the data block holds bytes; block sizes are
  counted in cells.
* Undefined behaviour of the C program (dereferencing `NULL` or a released
  block, reading or writing outside a block, releasing a block twice) is the
  result `none`.
* `malloc` is given its outcome by the caller of the model: `none` when the
  allocation fails, `some junk` when it succeeds with every cell holding `junk`.
-/

namespace RingBuffer

/-! ## Data model (`RingBuffer.h`) -/

/-- Result codes, `e_ringbuffer_error_t`. -/
inductive e_ringbuffer_error_t where
  | ringbuffer_error_ok
  | ringbuffer_error_parameter
  | ringbuffer_error_no_memory
  | ringbuffer_error_no_data
  deriving DecidableEq, Repr

open e_ringbuffer_error_t

/-- A pointer into the heap, together with the block it names. -/
inductive ptr_t where
  | null
  | live (cells : List Nat)
  | dangling
  deriving DecidableEq, Repr

/-- The handle structure, `s_ringbuffer_t`, fields in declaration order. -/
structure s_ringbuffer_t where
  priority_enable : Bool
  priority_level : Nat
  w : ptr_t
  r : ptr_t
  pbuffer : ptr_t
  buffer_data_size : Nat
  buffer_fifo_size : Nat
  deriving DecidableEq, Repr

/-! ## Memory primitives -/

/-- The read `*(p + i)`. -/
def load (p : ptr_t) (i : Nat) : Option Nat :=
  match p with
  | .live cells => cells[i]?
  | _ => none

/-- The write `*(p + i) = v`. -/
def store (p : ptr_t) (i : Nat) (v : Nat) : Option ptr_t :=
  match p with
  | .live cells => if i < cells.length then some (.live (cells.set i v)) else none
  | _ => none

/-- The call `memcpy(p + off, src, n)` into a heap block: `n` bytes are read from the
caller's array `src` and written at offset `off`. -/
def memcpy_to (p : ptr_t) (off : Nat) (src : List Nat) (n : Nat) : Option ptr_t :=
  match p with
  | .live cells =>
    if n ≤ src.length ∧ off + n ≤ cells.length then
      some (.live (cells.take off ++ src.take n ++ cells.drop (off + n)))
    else none
  | _ => none

/-- The bytes read by `memcpy(_, p + off, n)` from a heap block. -/
def memcpy_from (p : ptr_t) (off : Nat) (n : Nat) : Option (List Nat) :=
  match p with
  | .live cells => if off + n ≤ cells.length then some ((cells.drop off).take n) else none
  | _ => none

/-- The caller's array `dst` after `memcpy(dst, _, bytes.length)`. -/
def memcpy_out (dst : List Nat) (bytes : List Nat) : Option (List Nat) :=
  if bytes.length ≤ dst.length then some (bytes ++ dst.drop bytes.length) else none

/-- The block after `memset(p, v, n)`, `n` counted in cells. -/
def memset (p : ptr_t) (v : Nat) (n : Nat) : Option ptr_t :=
  match p with
  | .live cells =>
    if n ≤ cells.length then some (.live (List.replicate n v ++ cells.drop n)) else none
  | _ => none

/-! ## Internal functions -/

/-- The allocator `ringbuffer_malloc`: `fresh` is the outcome of the underlying `malloc`. -/
def ringbuffer_malloc (fresh : Option Nat) (size : Nat) : ptr_t :=
  match fresh with
  | none => .null
  | some junk => .live (List.replicate size junk)

/-- The release `ringbuffer_free`: a no-op on `NULL`, otherwise the block is released.
The result is what the (unchanged) address now names. -/
def ringbuffer_free (ptr : ptr_t) : Option ptr_t :=
  match ptr with
  | .null => some .null
  | .live _ => some .dangling
  | .dangling => none

/-! ## External functions -/

/-- The function `RingBuffer_Register`.  The handle is dereferenced (lines 58-64) before
it is compared with `NULL` (line 67), so a null handle is undefined behaviour and the
comparison never succeeds.  `mw`, `mr`, `mb` are the outcomes of the three `malloc`
calls, in program order, should they be reached. -/
def RingBuffer_Register (m_ringbuffer : Option s_ringbuffer_t) (priority_enable : Bool)
    (priority_level buffer_fifo_size buffer_data_size : Nat) (mw mr mb : Option Nat) :
    Option (e_ringbuffer_error_t × Option s_ringbuffer_t) :=
  match m_ringbuffer with
  | none => none
  | some _ =>
    let rb : s_ringbuffer_t :=
      { priority_enable := priority_enable, priority_level := priority_level,
        w := .null, r := .null, pbuffer := .null,
        buffer_data_size := buffer_data_size, buffer_fifo_size := buffer_fifo_size }
    if priority_enable = false then
      let rb := { rb with w := ringbuffer_malloc mw 1 }
      if rb.w = .null then some (ringbuffer_error_no_memory, some rb) else
      let rb := { rb with r := ringbuffer_malloc mr 1 }
      if rb.r = .null then do
        let fw ← ringbuffer_free rb.w
        some (ringbuffer_error_no_memory, some { rb with w := fw })
      else
      let rb := { rb with pbuffer := ringbuffer_malloc mb (buffer_fifo_size * buffer_data_size) }
      if rb.pbuffer = .null then do
        let fw ← ringbuffer_free rb.w
        let fr ← ringbuffer_free rb.r
        some (ringbuffer_error_no_memory, some { rb with w := fw, r := fr })
      else do
        let zw ← memset rb.w 0 1
        let zr ← memset rb.r 0 1
        let zb ← memset rb.pbuffer 0 (buffer_fifo_size * buffer_data_size)
        some (ringbuffer_error_ok, some { rb with w := zw, r := zr, pbuffer := zb })
    else
      if priority_level = 0 then some (ringbuffer_error_parameter, some rb) else
      let rb := { rb with w := ringbuffer_malloc mw priority_level }
      if rb.w = .null then some (ringbuffer_error_no_memory, some rb) else
      let rb := { rb with r := ringbuffer_malloc mr priority_level }
      if rb.r = .null then do
        let fw ← ringbuffer_free rb.w
        some (ringbuffer_error_no_memory, some { rb with w := fw })
      else
      let rb := { rb with
        pbuffer := ringbuffer_malloc mb (priority_level * buffer_fifo_size * buffer_data_size) }
      if rb.pbuffer = .null then do
        let fw ← ringbuffer_free rb.w
        let fr ← ringbuffer_free rb.r
        some (ringbuffer_error_no_memory, some { rb with w := fw, r := fr })
      else do
        let zw ← memset rb.w 0 priority_level
        let zr ← memset rb.r 0 priority_level
        let zb ← memset rb.pbuffer 0 (priority_level * buffer_fifo_size * buffer_data_size)
        some (ringbuffer_error_ok, some { rb with w := zw, r := zr, pbuffer := zb })

/-- The function `RingBuffer_UnRegister`: the three blocks are released and the whole
structure is zeroed. -/
def RingBuffer_UnRegister (m_ringbuffer : Option s_ringbuffer_t) :
    Option (e_ringbuffer_error_t × Option s_ringbuffer_t) :=
  match m_ringbuffer with
  | none => some (ringbuffer_error_parameter, none)
  | some rb => do
    let _ ← ringbuffer_free rb.w
    let _ ← ringbuffer_free rb.r
    let _ ← ringbuffer_free rb.pbuffer
    some (ringbuffer_error_ok, some
      { priority_enable := false, priority_level := 0, w := .null, r := .null,
        pbuffer := .null, buffer_data_size := 0, buffer_fifo_size := 0 })

/-- The function `RingBuffer_Push`.  `data` is the caller's array, `len` the number of
bytes to take from it. -/
def RingBuffer_Push (m_ringbuffer : Option s_ringbuffer_t) (priority : Nat)
    (data : List Nat) (len : Nat) : Option (e_ringbuffer_error_t × Option s_ringbuffer_t) :=
  match m_ringbuffer with
  | none => some (ringbuffer_error_parameter, none)
  | some rb =>
    if rb.w = .null ∨ rb.r = .null ∨ rb.pbuffer = .null then
      some (ringbuffer_error_parameter, some rb)
    else if len > rb.buffer_data_size then
      some (ringbuffer_error_parameter, some rb)
    else if rb.priority_enable = false then do
      let w0 ← load rb.w 0
      let temp_index := (w0 + 1) % 65536
      let temp_index := if temp_index ≥ rb.buffer_fifo_size then 0 else temp_index
      let r0 ← load rb.r 0
      if temp_index = r0 then some (ringbuffer_error_no_memory, some rb) else
      let buffer_offset := (w0 * rb.buffer_data_size) % 2 ^ 32
      let pbuffer ← memcpy_to rb.pbuffer buffer_offset data len
      let w ← store rb.w 0 temp_index
      some (ringbuffer_error_ok, some { rb with w := w, pbuffer := pbuffer })
    else
      if priority ≥ rb.priority_level then some (ringbuffer_error_parameter, some rb) else do
      let w_offset := priority
      let r_offset := priority
      let wp ← load rb.w w_offset
      let temp_index := (wp + 1) % 65536
      let temp_index := if temp_index ≥ rb.buffer_fifo_size then 0 else temp_index
      let rp ← load rb.r r_offset
      if temp_index = rp then some (ringbuffer_error_no_memory, some rb) else
      let buffer_offset :=
        ((wp + priority * rb.buffer_fifo_size) * rb.buffer_data_size) % 2 ^ 32
      let pbuffer ← memcpy_to rb.pbuffer buffer_offset data len
      let w ← store rb.w w_offset temp_index
      some (ringbuffer_error_ok, some { rb with w := w, pbuffer := pbuffer })

/-- The `for` loop of `RingBuffer_Pop` (lines 290-300), entered at lane `priority` with
`remaining = priority_level - priority` iterations left.  It yields the handle structure
and the caller's output array as the loop leaves them. -/
def Pop_scan (rb : s_ringbuffer_t) (data : List Nat) :
    (remaining : Nat) → (priority : Nat) → Option (s_ringbuffer_t × List Nat)
  | 0, _ => some (rb, data)
  | remaining + 1, priority => do
    let rp ← load rb.r priority
    let wp ← load rb.w priority
    if rp ≠ wp then
      let buffer_offset :=
        ((rp + priority * rb.buffer_fifo_size) * rb.buffer_data_size) % 2 ^ 32
      let bytes ← memcpy_from rb.pbuffer buffer_offset rb.buffer_data_size
      let data ← memcpy_out data bytes
      let r ← store rb.r priority
        (if rp + 1 ≥ rb.buffer_fifo_size then 0 else (rp + 1) % 65536)
      some ({ rb with r := r }, data)
    else Pop_scan rb data remaining (priority + 1)

/-- The function `RingBuffer_Pop`.  `data` is the caller's output array, `none` when the
pointer is `NULL`; the third component of the result is that array after the call. -/
def RingBuffer_Pop (m_ringbuffer : Option s_ringbuffer_t) (data : Option (List Nat)) :
    Option (e_ringbuffer_error_t × Option s_ringbuffer_t × Option (List Nat)) :=
  match m_ringbuffer with
  | none => some (ringbuffer_error_parameter, none, data)
  | some rb =>
    match data with
    | none => some (ringbuffer_error_parameter, some rb, none)
    | some out =>
      if rb.priority_enable = false then do
        let r0 ← load rb.r 0
        let temp_index := if r0 + 1 ≥ rb.buffer_fifo_size then 0 else (r0 + 1) % 65536
        let w0 ← load rb.w 0
        if temp_index = w0 then some (ringbuffer_error_no_data, some rb, some out) else
        let buffer_offset := (r0 * rb.buffer_data_size) % 2 ^ 32
        let bytes ← memcpy_from rb.pbuffer buffer_offset rb.buffer_data_size
        let out ← memcpy_out out bytes
        let r ← store rb.r 0 temp_index
        some (ringbuffer_error_ok, some { rb with r := r }, some out)
      else do
        let (rb, out) ← Pop_scan rb out rb.priority_level 0
        some (ringbuffer_error_ok, some rb, some out)


/-! ## `RingBuffer_Register` with the allocator calls it makes -/

/-- A call of the C library's allocator made by the program: `malloc(size)`, the size
counted in cells like the blocks, or `free`. -/
inductive heap_call_t where
  | malloc (size : Nat)
  | free
  deriving DecidableEq, Repr

/-- The allocator `ringbuffer_malloc`, with the call of `malloc` it makes appended to the
calls made so far. -/
def ringbuffer_malloc_logged (calls : List heap_call_t) (fresh : Option Nat) (size : Nat) :
    ptr_t × List heap_call_t :=
  (ringbuffer_malloc fresh size, calls ++ [.malloc size])

/-- The release `ringbuffer_free`, with the call of `free` it makes appended to the calls
made so far: `free` is called only when the pointer is not `NULL`. -/
def ringbuffer_free_logged (calls : List heap_call_t) (ptr : ptr_t) :
    Option (ptr_t × List heap_call_t) :=
  match ptr with
  | .null => some (.null, calls)
  | .live _ => some (.dangling, calls ++ [.free])
  | .dangling => none

/-- The function `RingBuffer_Register` once more, statement by statement, this time
returning as a third component the calls of `malloc` and `free` it has made, in program
order. -/
def RingBuffer_Register_logged (m_ringbuffer : Option s_ringbuffer_t) (priority_enable : Bool)
    (priority_level buffer_fifo_size buffer_data_size : Nat) (mw mr mb : Option Nat) :
    Option (e_ringbuffer_error_t × Option s_ringbuffer_t × List heap_call_t) :=
  match m_ringbuffer with
  | none => none
  | some _ =>
    let rb : s_ringbuffer_t :=
      { priority_enable := priority_enable, priority_level := priority_level,
        w := .null, r := .null, pbuffer := .null,
        buffer_data_size := buffer_data_size, buffer_fifo_size := buffer_fifo_size }
    let calls : List heap_call_t := []
    if priority_enable = false then
      let (pw, calls) := ringbuffer_malloc_logged calls mw 1
      let rb := { rb with w := pw }
      if rb.w = .null then some (ringbuffer_error_no_memory, some rb, calls) else
      let (pr, calls) := ringbuffer_malloc_logged calls mr 1
      let rb := { rb with r := pr }
      if rb.r = .null then do
        let (fw, calls) ← ringbuffer_free_logged calls rb.w
        some (ringbuffer_error_no_memory, some { rb with w := fw }, calls)
      else
      let (pb, calls) := ringbuffer_malloc_logged calls mb (buffer_fifo_size * buffer_data_size)
      let rb := { rb with pbuffer := pb }
      if rb.pbuffer = .null then do
        let (fw, calls) ← ringbuffer_free_logged calls rb.w
        let (fr, calls) ← ringbuffer_free_logged calls rb.r
        some (ringbuffer_error_no_memory, some { rb with w := fw, r := fr }, calls)
      else do
        let zw ← memset rb.w 0 1
        let zr ← memset rb.r 0 1
        let zb ← memset rb.pbuffer 0 (buffer_fifo_size * buffer_data_size)
        some (ringbuffer_error_ok, some { rb with w := zw, r := zr, pbuffer := zb }, calls)
    else
      if priority_level = 0 then some (ringbuffer_error_parameter, some rb, calls) else
      let (pw, calls) := ringbuffer_malloc_logged calls mw priority_level
      let rb := { rb with w := pw }
      if rb.w = .null then some (ringbuffer_error_no_memory, some rb, calls) else
      let (pr, calls) := ringbuffer_malloc_logged calls mr priority_level
      let rb := { rb with r := pr }
      if rb.r = .null then do
        let (fw, calls) ← ringbuffer_free_logged calls rb.w
        some (ringbuffer_error_no_memory, some { rb with w := fw }, calls)
      else
      let (pb, calls) := ringbuffer_malloc_logged calls mb
        (priority_level * buffer_fifo_size * buffer_data_size)
      let rb := { rb with pbuffer := pb }
      if rb.pbuffer = .null then do
        let (fw, calls) ← ringbuffer_free_logged calls rb.w
        let (fr, calls) ← ringbuffer_free_logged calls rb.r
        some (ringbuffer_error_no_memory, some { rb with w := fw, r := fr }, calls)
      else do
        let zw ← memset rb.w 0 priority_level
        let zr ← memset rb.r 0 priority_level
        let zb ← memset rb.pbuffer 0 (priority_level * buffer_fifo_size * buffer_data_size)
        some (ringbuffer_error_ok, some { rb with w := zw, r := zr, pbuffer := zb }, calls)

/-! ## Auxiliary definitions -/

/-- The lane a call of `RingBuffer_Push` addresses: `priority` itself when priorities are
enabled, the single lane `0` otherwise. -/
def lane_of (rb : s_ringbuffer_t) (priority : Nat) : Nat :=
  if rb.priority_enable then priority else 0

/-- Number of lanes of a handle structure. -/
def lane_count (rb : s_ringbuffer_t) : Nat :=
  if rb.priority_enable then rb.priority_level else 1

/-- The `s`-th slot of a data block whose slots are `dsize` bytes long. -/
def slot_at (buf : List Nat) (dsize : Nat) (s : Nat) : List Nat :=
  (buf.drop (s * dsize)).take dsize

/-- Representation invariant of an Active buffer (section 3 of the specification): the
three blocks are live and have the sizes `RingBuffer_Register` gave them, every index is
below `buffer_fifo_size`, and the `uint8_t` fields are in range. -/
def well_formed (rb : s_ringbuffer_t) : Prop :=
  match rb.w, rb.r, rb.pbuffer with
  | .live ws, .live rs, .live buf =>
    ws.length = lane_count rb ∧ rs.length = lane_count rb ∧
    buf.length = lane_count rb * rb.buffer_fifo_size * rb.buffer_data_size ∧
    (∀ x ∈ ws, x < rb.buffer_fifo_size) ∧ (∀ x ∈ rs, x < rb.buffer_fifo_size) ∧
    rb.priority_level < 256 ∧ rb.buffer_fifo_size < 256 ∧ rb.buffer_data_size < 256
  | _, _, _ => False

instance (rb : s_ringbuffer_t) : Decidable (well_formed rb) := by
  unfold well_formed
  split <;> infer_instance

/-- Consecutive calls of `RingBuffer_Push` with the same `priority` argument, one for each
`(data, len)` of the list: the result codes in call order and the final handle. -/
def push_run (m : Option s_ringbuffer_t) (priority : Nat) :
    List (List Nat × Nat) → Option (List e_ringbuffer_error_t × Option s_ringbuffer_t)
  | [] => some ([], m)
  | (data, len) :: rest => do
    let (e, m) ← RingBuffer_Push m priority data len
    let (es, m) ← push_run m priority rest
    some (e :: es, m)

/-- The Active state of the specification: all three allocations are non-null. -/
def Active (rb : s_ringbuffer_t) : Prop :=
  rb.w ≠ .null ∧ rb.r ≠ .null ∧ rb.pbuffer ≠ .null

instance (rb : s_ringbuffer_t) : Decidable (Active rb) := by
  unfold Active
  infer_instance

/-- Consecutive calls of `RingBuffer_Pop`, `n` of them, each handed the output array as the
previous call left it: the result code and output array of every call, and the final
handle. -/
def pop_run (m : Option s_ringbuffer_t) (data : Option (List Nat)) :
    Nat → Option (List (e_ringbuffer_error_t × Option (List Nat)) × Option s_ringbuffer_t)
  | 0 => some ([], m)
  | n + 1 => do
    let (e, m, out) ← RingBuffer_Pop m data
    let (rest, m) ← pop_run m out n
    some ((e, out) :: rest, m)

/-- The handle structure before `RingBuffer_Register` is called on it: zero-initialised
storage. -/
def unregistered : s_ringbuffer_t :=
  { priority_enable := false, priority_level := 0, w := .null, r := .null, pbuffer := .null,
    buffer_data_size := 0, buffer_fifo_size := 0 }

/-- Repeated pairs of calls, `RingBuffer_Push` of `(data, len)` with the given `priority`
followed by `RingBuffer_Pop`, one pair for each element of the list; the output array is
handed from one pop to the next.  The result lists, for each pair, the code of the push,
the code of the pop and the output array after the pop. -/
def push_pop_run (m : Option s_ringbuffer_t) (priority : Nat) (out : Option (List Nat)) :
    List (List Nat × Nat) →
    Option (List (e_ringbuffer_error_t × e_ringbuffer_error_t × Option (List Nat))
      × Option s_ringbuffer_t × Option (List Nat))
  | [] => some ([], m, out)
  | (data, len) :: rest => do
    let (e1, m) ← RingBuffer_Push m priority data len
    let (e2, m, out) ← RingBuffer_Pop m out
    let (log, m, last) ← push_pop_run m priority out rest
    some ((e1, e2, out) :: log, m, last)

/-- One call of the interface together with its arguments; for `pop` the argument is the
caller's output array. -/
inductive call_t where
  | push (priority : Nat) (data : List Nat) (len : Nat)
  | pop (data : List Nat)

/-- What a call did to a lane: it stored an item in it, or it handed an item out of it. -/
inductive event_t where
  | pushed (lane : Nat) (item : List Nat)
  | delivered (lane : Nat) (item : List Nat)

/-- The first lane, among the `remaining` lanes starting at `lane`, whose read index is not
the same in `rb` and in `rb'`: the lane a pop has served. -/
def first_moved (rb rb' : s_ringbuffer_t) : (remaining : Nat) → (lane : Nat) → Option Nat
  | 0, _ => none
  | remaining + 1, lane =>
    if load rb.r lane ≠ load rb'.r lane then some lane
    else first_moved rb rb' remaining (lane + 1)

/-- One call on a non-null handle, with the events it caused: a push that returns
`ringbuffer_error_ok` stores the first `len` bytes of `data` in the addressed lane; a pop
that returns `ringbuffer_error_ok` and moves the read index of a lane hands out the first
`buffer_data_size` bytes of the output array from that lane. -/
def step (rb : s_ringbuffer_t) : call_t → Option (s_ringbuffer_t × List event_t)
  | .push priority data len =>
    match RingBuffer_Push (some rb) priority data len with
    | some (e, some rb') =>
      some (rb',
        if e = ringbuffer_error_ok then [.pushed (lane_of rb priority) (data.take len)] else [])
    | _ => none
  | .pop data =>
    match RingBuffer_Pop (some rb) (some data) with
    | some (e, some rb', some out) =>
      some (rb',
        match (if e = ringbuffer_error_ok then first_moved rb rb' (lane_count rb) 0 else none) with
        | some k => [.delivered k (out.take rb.buffer_data_size)]
        | none => [])
    | _ => none

/-- A sequence of calls, the events being appended to `log` in call order. -/
def run (rb : s_ringbuffer_t) (log : List event_t) :
    List call_t → Option (s_ringbuffer_t × List event_t)
  | [] => some (rb, log)
  | c :: cs =>
    match step rb c with
    | some (rb', ev) => run rb' (log ++ ev) cs
    | none => none

/-- The items stored in lane `k`, in the order of the calls that stored them. -/
def pushed_to (k : Nat) (log : List event_t) : List (List Nat) :=
  log.filterMap fun ev =>
    match ev with
    | .pushed lane item => if lane = k then some item else none
    | .delivered _ _ => none

/-- The items handed out of lane `k`, in the order of the calls that handed them out. -/
def delivered_from (k : Nat) (log : List event_t) : List (List Nat) :=
  log.filterMap fun ev =>
    match ev with
    | .pushed _ _ => none
    | .delivered lane item => if lane = k then some item else none

/-- The `n` slots of lane `k` that start at index `r`, in cyclic order. -/
def slots_from (buf : List Nat) (dsize fifo k : Nat) : (n : Nat) → (r : Nat) → List (List Nat)
  | 0, _ => []
  | n + 1, r => slot_at buf dsize (r + k * fifo) :: slots_from buf dsize fifo k n ((r + 1) % fifo)

/-- The slots of lane `k` from `read_index[k]` up to but excluding `write_index[k]`, in
cyclic order. -/
def pending_slots (rb : s_ringbuffer_t) (k : Nat) : List (List Nat) :=
  match rb.w, rb.r, rb.pbuffer with
  | .live ws, .live rs, .live buf =>
    slots_from buf rb.buffer_data_size rb.buffer_fifo_size k
      ((ws.getD k 0 + rb.buffer_fifo_size - rs.getD k 0) % rb.buffer_fifo_size) (rs.getD k 0)
  | _, _, _ => []

/-- The arrays handed to a call are as long as the call will use them: `len` bytes are
readable for a push, `dsize` bytes are writable for a pop. -/
def call_ok (dsize : Nat) : call_t → Prop
  | .push _ data len => len ≤ data.length
  | .pop data => dsize ≤ data.length

instance (dsize : Nat) (c : call_t) : Decidable (call_ok dsize c) := by
  cases c <;> unfold call_ok <;> infer_instance

/-- Bookkeeping of one lane: `P` are the items stored so far and `D` the items handed out so
far.  Every item handed out starts with the item stored at the same position, and the
items stored but not handed out sit in the slots from the read index up to the write
index. -/
def lane_inv (fifo dsize k : Nat) (ws rs buf : List Nat) (P D : List (List Nat)) : Prop :=
  ∃ wv rv, ws[k]? = some wv ∧ rs[k]? = some rv ∧ D.length ≤ P.length ∧
    P.length - D.length < fifo ∧ wv = (rv + (P.length - D.length)) % fifo ∧
    List.Forall₂ (fun p d => p <+: d) (P.take D.length) D ∧
    List.Forall₂ (fun p s => p <+: s) (P.drop D.length)
      (slots_from buf dsize fifo k (P.length - D.length) rv)

/-- Invariant of a priority-mode buffer and the log of what was done to it. -/
def fifo_inv (rb : s_ringbuffer_t) (log : List event_t) : Prop :=
  well_formed rb ∧ rb.priority_enable = true ∧ 2 ≤ rb.buffer_fifo_size ∧
  ∃ ws rs buf, rb.w = .live ws ∧ rb.r = .live rs ∧ rb.pbuffer = .live buf ∧
    ∀ k, k < rb.priority_level →
      lane_inv rb.buffer_fifo_size rb.buffer_data_size k ws rs buf
        (pushed_to k log) (delivered_from k log)

/-- The byte offset `buffer_offset` the code computes, as a `uint32_t`, for slot `index` of
lane `priority` (lines 239 and 295); with `priority = 0` it is the offset of lines 213 and
284. -/
def buffer_offset (rb : s_ringbuffer_t) (priority index : Nat) : Nat :=
  ((index + priority * rb.buffer_fifo_size) * rb.buffer_data_size) % 2 ^ 32

/-! ## Auxiliary lemmas -/

theorem offset_lt (i k fifo dsize : Nat) (hi : i < fifo) (hf : fifo < 256) (hk : k < 256)
    (hd : dsize < 256) : (i + k * fifo) * dsize < 2 ^ 32 := by
  have h1 : k * fifo ≤ 255 * 255 := Nat.mul_le_mul (by omega) (by omega)
  have h2 : (i + k * fifo) * dsize ≤ (255 + 255 * 255) * 255 :=
    Nat.mul_le_mul (by omega) (by omega)
  omega

theorem next_index_eq (i fifo : Nat) (hi : i < fifo) (hf : fifo < 256) :
    (if (i + 1) % 65536 ≥ fifo then 0 else (i + 1) % 65536) = (i + 1) % fifo := by
  have h : (i + 1) % 65536 = i + 1 := Nat.mod_eq_of_lt (by omega)
  rw [h]
  by_cases hc : i + 1 = fifo
  · simp [hc]
  · have : i + 1 < fifo := by omega
    rw [Nat.mod_eq_of_lt this]; simp; omega

theorem next_index_eq' (i fifo : Nat) (hi : i < fifo) (hf : fifo < 256) :
    (if i + 1 ≥ fifo then 0 else (i + 1) % 65536) = (i + 1) % fifo := by
  have h : (i + 1) % 65536 = i + 1 := Nat.mod_eq_of_lt (by omega)
  rw [← next_index_eq i fifo hi hf, h]

/-- Explicit result of `RingBuffer_Push` on a handle whose three blocks are live. -/
theorem Push_live (rb : s_ringbuffer_t) (priority : Nat) (data : List Nat) (len : Nat)
    (ws rs buf : List Nat) (wv rv : Nat)
    (hw : rb.w = .live ws) (hr : rb.r = .live rs) (hb : rb.pbuffer = .live buf)
    (hlen : len ≤ rb.buffer_data_size)
    (hlane : rb.priority_enable = true → priority < rb.priority_level)
    (hwv : ws[lane_of rb priority]? = some wv) (hrv : rs[lane_of rb priority]? = some rv)
    (hwlt : wv < rb.buffer_fifo_size) (hf : rb.buffer_fifo_size < 256)
    (hd : rb.buffer_data_size < 256) (hk : lane_of rb priority < 256) :
    RingBuffer_Push (some rb) priority data len =
      if (wv + 1) % rb.buffer_fifo_size = rv then some (ringbuffer_error_no_memory, some rb)
      else
        (memcpy_to (.live buf)
          ((wv + lane_of rb priority * rb.buffer_fifo_size) * rb.buffer_data_size) data len).map
          fun pb => (ringbuffer_error_ok, some { rb with
            w := .live (ws.set (lane_of rb priority) ((wv + 1) % rb.buffer_fifo_size)),
            pbuffer := pb }) := by
  have hoff := offset_lt wv (lane_of rb priority) _ _ hwlt hf hk hd
  have hnext := next_index_eq wv _ hwlt hf
  have hkw : lane_of rb priority < ws.length := by
    by_contra hc
    rw [List.getElem?_eq_none (by omega)] at hwv; cases hwv
  cases hpe : rb.priority_enable
  · simp only [lane_of, hpe] at hwv hrv hoff hkw ⊢
    simp at hwv hrv hoff hkw
    simp only [RingBuffer_Push, hw, hr, hb, load, hpe]
    simp [Nat.not_lt.mpr hlen, hwv, hrv, hnext, store, hkw]
    rw [Nat.mod_eq_of_lt hoff]
    split <;> simp [Option.map]
    cases memcpy_to (.live buf) (wv * rb.buffer_data_size) data len <;> simp
  · simp only [lane_of, hpe] at hwv hrv hoff hkw ⊢
    simp at hwv hrv hoff hkw
    have hl := Nat.not_le.mpr (hlane hpe)
    simp only [RingBuffer_Push, hw, hr, hb, load, hpe]
    simp [Nat.not_lt.mpr hlen, hwv, hrv, hnext, store, hkw, hl]
    rw [Nat.mod_eq_of_lt hoff]
    split <;> simp [Option.map]
    cases memcpy_to (.live buf) ((wv + priority * rb.buffer_fifo_size) * rb.buffer_data_size) data len <;> simp


/-- The scan passes over lanes whose two indices agree. -/
theorem Pop_scan_skip (rb : s_ringbuffer_t) (out : List Nat) (n p : Nat)
    (hempty : ∀ i, p ≤ i → i < p + n → ∃ v, load rb.r i = some v ∧ load rb.w i = some v) :
    Pop_scan rb out n p = some (rb, out) := by
  induction n generalizing p with
  | zero => rfl
  | succ n ih =>
    obtain ⟨v, hr, hw⟩ := hempty p (Nat.le_refl p) (by omega)
    simp only [Pop_scan, hr, hw]
    simp
    exact ih (p + 1) (fun i h1 h2 => hempty i (by omega) (by omega))

/-- The scan stops at the first lane whose two indices differ and serves it. -/
theorem Pop_scan_hit (rb : s_ringbuffer_t) (out : List Nat) (n p j rv wv : Nat)
    (hp : p ≤ j) (hj : j < p + n)
    (hempty : ∀ i, p ≤ i → i < j → ∃ v, load rb.r i = some v ∧ load rb.w i = some v)
    (hr : load rb.r j = some rv) (hw : load rb.w j = some wv) (hne : rv ≠ wv) :
    Pop_scan rb out n p =
      (memcpy_from rb.pbuffer
        (((rv + j * rb.buffer_fifo_size) * rb.buffer_data_size) % 2 ^ 32)
        rb.buffer_data_size).bind fun bytes =>
      (memcpy_out out bytes).bind fun data =>
      (store rb.r j (if rv + 1 ≥ rb.buffer_fifo_size then 0 else (rv + 1) % 65536)).bind fun r =>
      some ({ rb with r := r }, data) := by
  induction n generalizing p with
  | zero => omega
  | succ n ih =>
    by_cases hpj : p = j
    · subst hpj
      simp only [Pop_scan, hr, hw]
      simp [hne]
    · obtain ⟨v, hr', hw'⟩ := hempty p (Nat.le_refl p) (by omega)
      simp only [Pop_scan, hr', hw']
      simp
      exact ih (p + 1) (by omega) (by omega) (fun i h1 h2 => hempty i (by omega) h2)

/-- Explicit result of `RingBuffer_Pop` in priority mode when lane `j` is the first lane
holding data. -/
theorem Pop_priority_hit (rb : s_ringbuffer_t) (out ws rs buf : List Nat) (j rv wv : Nat)
    (hpe : rb.priority_enable = true)
    (hw : rb.w = .live ws) (hr : rb.r = .live rs) (hb : rb.pbuffer = .live buf)
    (hj : j < rb.priority_level)
    (hempty : ∀ i, i < j → ∃ v, rs[i]? = some v ∧ ws[i]? = some v)
    (hrv : rs[j]? = some rv) (hwv : ws[j]? = some wv) (hne : rv ≠ wv)
    (hrlt : rv < rb.buffer_fifo_size) (hf : rb.buffer_fifo_size < 256)
    (hd : rb.buffer_data_size < 256) (hl : rb.priority_level < 256)
    (hbuf : (rv + j * rb.buffer_fifo_size) * rb.buffer_data_size + rb.buffer_data_size
      ≤ buf.length)
    (hout : rb.buffer_data_size ≤ out.length) :
    RingBuffer_Pop (some rb) (some out) =
      some (ringbuffer_error_ok,
        some { rb with r := .live (rs.set j ((rv + 1) % rb.buffer_fifo_size)) },
        some (slot_at buf rb.buffer_data_size (rv + j * rb.buffer_fifo_size)
          ++ out.drop rb.buffer_data_size)) := by
  have hoff := offset_lt rv j _ _ hrlt hf (by omega) hd
  have hnext := next_index_eq' rv _ hrlt hf
  have hjr : j < rs.length := by
    by_contra hc
    rw [List.getElem?_eq_none (by omega)] at hrv; cases hrv
  have hscan := Pop_scan_hit rb out rb.priority_level 0 j rv wv (Nat.zero_le j) (by omega)
    (fun i _ h2 => by simpa [load, hr, hw] using hempty i h2)
    (by simpa [load, hr] using hrv) (by simpa [load, hw] using hwv) hne
  simp only [RingBuffer_Pop, hpe]
  simp only [hscan, hnext, Nat.mod_eq_of_lt hoff, hb, hr, memcpy_from, memcpy_out, store]
  simp [hbuf, hjr, slot_at, List.length_take, List.length_drop]
  have : rb.buffer_data_size ≤ buf.length - (rv + j * rb.buffer_fifo_size) * rb.buffer_data_size := by
    omega
  simp [Nat.min_eq_left this, hout, hpe]

/-- Explicit result of `RingBuffer_Pop` in priority mode when every lane is empty. -/
theorem Pop_priority_empty (rb : s_ringbuffer_t) (out : List Nat)
    (hpe : rb.priority_enable = true)
    (hempty : ∀ i, i < rb.priority_level → ∃ v, load rb.r i = some v ∧ load rb.w i = some v) :
    RingBuffer_Pop (some rb) (some out) = some (ringbuffer_error_ok, some rb, some out) := by
  have hscan := Pop_scan_skip rb out rb.priority_level 0
    (fun i _ h2 => hempty i (by omega))
  simp [RingBuffer_Pop, hpe, hscan]

theorem well_formed_iff (rb : s_ringbuffer_t) :
    well_formed rb ↔ ∃ ws rs buf, rb.w = .live ws ∧ rb.r = .live rs ∧ rb.pbuffer = .live buf ∧
      ws.length = lane_count rb ∧ rs.length = lane_count rb ∧
      buf.length = lane_count rb * rb.buffer_fifo_size * rb.buffer_data_size ∧
      (∀ x ∈ ws, x < rb.buffer_fifo_size) ∧ (∀ x ∈ rs, x < rb.buffer_fifo_size) ∧
      rb.priority_level < 256 ∧ rb.buffer_fifo_size < 256 ∧ rb.buffer_data_size < 256 := by
  unfold well_formed
  constructor
  · intro h
    split at h
    · next ws rs buf hw hr hb => exact ⟨ws, rs, buf, hw, hr, hb, h⟩
    · exact h.elim
  · rintro ⟨ws, rs, buf, hw, hr, hb, h⟩
    simp only [hw, hr, hb]
    exact h

/-- The slot `(lane k, index i)` lies inside a data block of `lanes` lanes. -/
theorem slot_in_bounds (i k lanes fifo dsize : Nat) (hi : i < fifo) (hk : k < lanes) :
    (i + k * fifo) * dsize + dsize ≤ lanes * fifo * dsize := by
  have h1 : i + k * fifo + 1 ≤ lanes * fifo := by
    have : (k + 1) * fifo ≤ lanes * fifo := Nat.mul_le_mul_right _ hk
    rw [Nat.succ_mul] at this
    omega
  have h2 := Nat.mul_le_mul_right dsize h1
  rw [Nat.succ_mul] at h2
  exact h2

/-- The handle structure a successful `RingBuffer_Register` leaves behind. -/
theorem Register_ok (old : s_ringbuffer_t) (pe : Bool) (level fifo dsize : Nat)
    (mw mr mb : Option Nat) (rb : s_ringbuffer_t)
    (h : RingBuffer_Register (some old) pe level fifo dsize mw mr mb
      = some (ringbuffer_error_ok, some rb)) :
    rb = { priority_enable := pe, priority_level := level,
           w := .live (List.replicate (if pe then level else 1) 0),
           r := .live (List.replicate (if pe then level else 1) 0),
           pbuffer := .live (List.replicate ((if pe then level else 1) * fifo * dsize) 0),
           buffer_data_size := dsize, buffer_fifo_size := fifo } ∧
    (pe = true → level ≠ 0) := by
  cases pe <;> cases mw <;> cases mr <;> cases mb <;>
    simp [RingBuffer_Register, ringbuffer_malloc, ringbuffer_free, memset] at h ⊢
  · exact h.symm
  all_goals
    by_cases hl : level = 0
    · simp [hl] at h
    · simp [hl] at h
      first
        | exact ⟨h.symm, hl⟩
        | skip

/-- A freshly registered buffer satisfies the representation invariant. -/
theorem Register_well_formed (old : s_ringbuffer_t) (pe : Bool) (level fifo dsize : Nat)
    (mw mr mb : Option Nat) (rb : s_ringbuffer_t)
    (h : RingBuffer_Register (some old) pe level fifo dsize mw mr mb
      = some (ringbuffer_error_ok, some rb))
    (hl : level < 256) (hf : 1 ≤ fifo ∧ fifo < 256) (hd : dsize < 256) : well_formed rb := by
  obtain ⟨rfl, -⟩ := Register_ok old pe level fifo dsize mw mr mb rb h
  rw [well_formed_iff]
  refine ⟨_, _, _, rfl, rfl, rfl, ?_⟩
  have hpos : 0 < fifo := hf.1
  simp [lane_count, hl, hf.2, hd, hpos]

theorem lane_of_lt (rb : s_ringbuffer_t) (priority : Nat)
    (hlane : rb.priority_enable = true → priority < rb.priority_level) :
    lane_of rb priority < lane_count rb := by
  unfold lane_of lane_count
  cases hpe : rb.priority_enable
  · simp
  · simpa using hlane hpe

/-- Explicit result of `RingBuffer_Push` on a well-formed buffer, for arguments that pass
the parameter checks. -/
theorem Push_wf (rb : s_ringbuffer_t) (priority : Nat) (data : List Nat) (len : Nat)
    (hwf : well_formed rb) (hlen : len ≤ rb.buffer_data_size) (hdata : len ≤ data.length)
    (hlane : rb.priority_enable = true → priority < rb.priority_level) :
    ∃ ws rs buf wv rv, rb.w = .live ws ∧ rb.r = .live rs ∧ rb.pbuffer = .live buf ∧
      ws[lane_of rb priority]? = some wv ∧ rs[lane_of rb priority]? = some rv ∧
      wv < rb.buffer_fifo_size ∧ rv < rb.buffer_fifo_size ∧
      RingBuffer_Push (some rb) priority data len =
        if (wv + 1) % rb.buffer_fifo_size = rv then
          some (ringbuffer_error_no_memory, some rb)
        else
          some (ringbuffer_error_ok, some { rb with
            w := .live (ws.set (lane_of rb priority) ((wv + 1) % rb.buffer_fifo_size)),
            pbuffer := .live
              (buf.take ((wv + lane_of rb priority * rb.buffer_fifo_size) * rb.buffer_data_size)
                ++ data.take len
                ++ buf.drop ((wv + lane_of rb priority * rb.buffer_fifo_size)
                      * rb.buffer_data_size + len)) }) := by
  obtain ⟨ws, rs, buf, hw, hr, hb, hwl, hrl, hbl, hwi, hri, hl, hf, hd⟩ :=
    (well_formed_iff rb).mp hwf
  have hk := lane_of_lt rb priority hlane
  have hkw : lane_of rb priority < ws.length := by omega
  have hkr : lane_of rb priority < rs.length := by omega
  have hwv := List.getElem?_eq_getElem hkw
  have hrv := List.getElem?_eq_getElem hkr
  have hwlt := hwi _ (List.getElem?_mem hwv)
  have hrlt := hri _ (List.getElem?_mem hrv)
  have hk256 : lane_of rb priority < 256 := by
    have : lane_count rb < 256 := by
      unfold lane_count; split <;> omega
    omega
  refine ⟨ws, rs, buf, _, _, hw, hr, hb, hwv, hrv, hwlt, hrlt, ?_⟩
  rw [Push_live rb priority data len ws rs buf _ _ hw hr hb hlen hlane hwv hrv hwlt hf hd hk256]
  have hb' := slot_in_bounds _ _ _ _ rb.buffer_data_size hwlt hk
  have : (ws[lane_of rb priority] + lane_of rb priority * rb.buffer_fifo_size)
      * rb.buffer_data_size + len ≤ buf.length := by omega
  simp [memcpy_to, hdata, this]

/-- A successful or refused `RingBuffer_Push` keeps the representation invariant. -/
theorem Push_wf_preserved (rb : s_ringbuffer_t) (priority : Nat) (data : List Nat) (len : Nat)
    (hwf : well_formed rb) (hlen : len ≤ rb.buffer_data_size) (hdata : len ≤ data.length)
    (hlane : rb.priority_enable = true → priority < rb.priority_level) :
    ∃ e rb', RingBuffer_Push (some rb) priority data len = some (e, some rb') ∧
      well_formed rb' ∧ rb'.priority_enable = rb.priority_enable ∧
      rb'.priority_level = rb.priority_level ∧ rb'.r = rb.r ∧
      rb'.buffer_data_size = rb.buffer_data_size ∧
      rb'.buffer_fifo_size = rb.buffer_fifo_size := by
  obtain ⟨ws, rs, buf, wv, rv, hw, hr, hb, hwv, hrv, hwlt, hrlt, hpush⟩ :=
    Push_wf rb priority data len hwf hlen hdata hlane
  obtain ⟨ws', rs', buf', hw', hr', hb', hwl, hrl, hbl, hwi, hri, hl, hf, hd⟩ :=
    (well_formed_iff rb).mp hwf
  rw [hw] at hw'; rw [hr] at hr'; rw [hb] at hb'
  cases hw'; cases hr'; cases hb'
  rw [hpush]
  split
  · exact ⟨_, _, rfl, hwf, rfl, rfl, rfl, rfl, rfl⟩
  · refine ⟨_, _, rfl, ?_, rfl, rfl, rfl, rfl, rfl⟩
    rw [well_formed_iff]
    refine ⟨_, _, _, rfl, hr, rfl, ?_, hrl, ?_, ?_, hri, hl, hf, hd⟩
    · simpa [lane_count] using hwl
    · have hb' := slot_in_bounds _ _ _ _ rb.buffer_data_size hwlt
        (lane_of_lt rb priority hlane)
      simp only [List.length_append, List.length_take, List.length_drop, lane_count] at hbl ⊢
      rw [← hbl]
      simp only [lane_count] at hb'
      omega
    · intro x hx
      rcases List.mem_or_eq_of_mem_set hx with h | h
      · exact hwi x h
      · rw [h]; exact Nat.mod_lt _ (by omega)


/-! ### Slots of the data block -/

theorem slot_at_getElem? (buf : List Nat) (d s i : Nat) :
    (slot_at buf d s)[i]? = if i < d then buf[s * d + i]? else none := by
  simp [slot_at, List.getElem?_take, List.getElem?_drop]

/-- Cells of a data block after `len` bytes were copied to offset `off`. -/
theorem written_getElem? (buf data : List Nat) (off len i : Nat)
    (hdata : len ≤ data.length) (hoff : off + len ≤ buf.length) :
    (buf.take off ++ data.take len ++ buf.drop (off + len))[i]? =
      if i < off then buf[i]? else if i < off + len then data[i - off]? else buf[i]? := by
  have h1 : (buf.take off).length = off := by simp; omega
  have h2 : (data.take len).length = len := by simp; omega
  by_cases hi : i < off
  · rw [if_pos hi, List.append_assoc, List.getElem?_append_left (by omega),
      List.getElem?_take_of_lt hi]
  · rw [if_neg hi]
    by_cases hi2 : i < off + len
    · rw [if_pos hi2, List.getElem?_append_left (by simp; omega),
        List.getElem?_append_right (by omega), h1, List.getElem?_take_of_lt (by omega)]
    · rw [if_neg hi2, List.getElem?_append_right (by simp; omega)]
      simp only [List.length_append, h1, h2, List.getElem?_drop]
      congr 1
      omega

/-- The slot that was written holds the payload followed by the old tail of the slot. -/
theorem slot_at_written (buf data : List Nat) (d s len : Nat)
    (hlen : len ≤ d) (hdata : len ≤ data.length) (hbuf : s * d + d ≤ buf.length) :
    slot_at (buf.take (s * d) ++ data.take len ++ buf.drop (s * d + len)) d s =
      data.take len ++ (slot_at buf d s).drop len := by
  apply List.ext_getElem?
  intro i
  rw [slot_at_getElem?, written_getElem? buf data (s * d) len _ hdata (by omega)]
  have h2 : (data.take len).length = len := by simp; omega
  by_cases hi : i < len
  · rw [if_pos (by omega), if_neg (by omega), if_pos (by omega),
      List.getElem?_append_left (by omega), List.getElem?_take_of_lt hi]
    congr 1
    omega
  · rw [List.getElem?_append_right (by omega), h2, List.getElem?_drop, slot_at_getElem?]
    have : len + (i - len) = i := by omega
    rw [this]
    by_cases hid : i < d
    · rw [if_pos hid, if_pos hid, if_neg (by omega), if_neg (by omega)]
    · rw [if_neg hid, if_neg hid]

/-- Every other slot is untouched by the write. -/
theorem slot_at_other (buf data : List Nat) (d s s' len : Nat)
    (hlen : len ≤ d) (hdata : len ≤ data.length) (hbuf : s * d + d ≤ buf.length)
    (hne : s' ≠ s) :
    slot_at (buf.take (s * d) ++ data.take len ++ buf.drop (s * d + len)) d s' =
      slot_at buf d s' := by
  apply List.ext_getElem?
  intro i
  rw [slot_at_getElem?, slot_at_getElem?, written_getElem? buf data (s * d) len _ hdata (by omega)]
  by_cases hid : i < d
  · rw [if_pos hid, if_pos hid]
    rcases Nat.lt_or_gt_of_ne hne with h | h
    · have := Nat.mul_le_mul_right d (Nat.succ_le_of_lt h)
      rw [Nat.succ_mul] at this
      rw [if_pos (by omega)]
    · have := Nat.mul_le_mul_right d (Nat.succ_le_of_lt h)
      rw [Nat.succ_mul] at this
      rw [if_neg (by omega), if_neg (by omega)]
  · rw [if_neg hid, if_neg hid]

/-- Slots of different lanes, or of different indices in one lane, have different
numbers. -/
theorem slot_number_inj (a b k k' fifo : Nat) (ha : a < fifo) (hb : b < fifo)
    (h : a + k * fifo = b + k' * fifo) : a = b ∧ k = k' := by
  have hk : k = k' := by
    rcases Nat.lt_trichotomy k k' with hlt | heq | hgt
    · have := Nat.mul_le_mul_right fifo (Nat.succ_le_of_lt hlt)
      rw [Nat.succ_mul] at this
      omega
    · exact heq
    · have := Nat.mul_le_mul_right fifo (Nat.succ_le_of_lt hgt)
      rw [Nat.succ_mul] at this
      omega
  subst hk
  exact ⟨by omega, rfl⟩

/-- Advancing an index by one changes it when there are at least two slots. -/
theorem next_index_ne (i fifo : Nat) (hi : i < fifo) (hf : 2 ≤ fifo) : (i + 1) % fifo ≠ i := by
  by_cases hc : i + 1 = fifo
  · rw [hc, Nat.mod_self]; omega
  · rw [Nat.mod_eq_of_lt (by omega)]; omega


/-! ### Logs and cyclic runs of slots -/

theorem pushed_to_append (k : Nat) (l1 l2 : List event_t) :
    pushed_to k (l1 ++ l2) = pushed_to k l1 ++ pushed_to k l2 := by
  simp [pushed_to, List.filterMap_append]

theorem delivered_from_append (k : Nat) (l1 l2 : List event_t) :
    delivered_from k (l1 ++ l2) = delivered_from k l1 ++ delivered_from k l2 := by
  simp [delivered_from, List.filterMap_append]

theorem slots_from_length (buf : List Nat) (dsize fifo k n : Nat) :
    ∀ r, (slots_from buf dsize fifo k n r).length = n := by
  induction n with
  | zero => intro r; rfl
  | succ n ih => intro r; simp [slots_from, ih]

/-- A run of slots is the same in two data blocks that agree on every slot of the run. -/
theorem slots_from_congr (buf buf' : List Nat) (dsize fifo k n : Nat) :
    ∀ r, r < fifo →
    (∀ i, i < n → slot_at buf' dsize ((r + i) % fifo + k * fifo)
      = slot_at buf dsize ((r + i) % fifo + k * fifo)) →
    slots_from buf' dsize fifo k n r = slots_from buf dsize fifo k n r := by
  induction n with
  | zero => intro r _ _; rfl
  | succ n ih =>
    intro r hr h
    have h0 := h 0 (Nat.succ_pos n)
    rw [Nat.add_zero, Nat.mod_eq_of_lt hr] at h0
    simp only [slots_from, h0]
    congr 1
    apply ih _ (Nat.mod_lt _ (by omega))
    intro i hi
    have := h (i + 1) (by omega)
    rw [Nat.mod_add_mod]
    rwa [show r + (i + 1) = r + 1 + i by omega] at this

/-- A run of `n + 1` slots is the run of `n` slots followed by the slot `n` places on. -/
theorem slots_from_succ (buf : List Nat) (dsize fifo k n : Nat) :
    ∀ r, r < fifo →
    slots_from buf dsize fifo k (n + 1) r =
      slots_from buf dsize fifo k n r ++ [slot_at buf dsize ((r + n) % fifo + k * fifo)] := by
  induction n with
  | zero =>
    intro r hr
    simp [slots_from, Nat.mod_eq_of_lt hr]
  | succ n ih =>
    intro r hr
    rw [slots_from, ih _ (Nat.mod_lt _ (by omega)), Nat.mod_add_mod]
    conv_rhs => rw [slots_from]
    rw [show r + 1 + n = r + (n + 1) by omega]
    rfl

/-- Distinct offsets below `fifo` from the same start give distinct indices. -/
theorem cyclic_index_ne (r i n fifo : Nat) (hin : i < n) (hn : n < fifo) :
    (r + i) % fifo ≠ (r + n) % fifo := by
  intro h
  have h1 : (r + n - (r + i)) % fifo = 0 :=
    Nat.sub_mod_eq_zero_of_mod_eq h.symm
  have h2 : r + n - (r + i) = n - i := by omega
  rw [h2, Nat.mod_eq_of_lt (by omega)] at h1
  omega

/-- The number of slots from the read index up to the write index. -/
theorem pending_count (rv n fifo : Nat) (hr : rv < fifo) (hn : n < fifo) :
    ((rv + n) % fifo + fifo - rv) % fifo = n := by
  by_cases h : rv + n < fifo
  · rw [Nat.mod_eq_of_lt h, show rv + n + fifo - rv = n + fifo by omega,
      Nat.add_mod_right, Nat.mod_eq_of_lt hn]
  · have h1 : (rv + n) % fifo = rv + n - fifo := by
      rw [Nat.mod_eq_sub_mod (by omega), Nat.mod_eq_of_lt (by omega)]
    rw [h1, show rv + n - fifo + fifo - rv = n by omega, Nat.mod_eq_of_lt hn]

theorem first_moved_none (rb rb' : s_ringbuffer_t) (n : Nat) :
    ∀ p, (∀ i, p ≤ i → i < p + n → load rb.r i = load rb'.r i) →
    first_moved rb rb' n p = none := by
  induction n with
  | zero => intro p _; rfl
  | succ n ih =>
    intro p h
    have h0 := h p (Nat.le_refl p) (by omega)
    simp only [first_moved, h0, ne_eq, not_true_eq_false, if_false]
    exact ih (p + 1) (fun i h1 h2 => h i (by omega) (by omega))

theorem first_moved_some (rb rb' : s_ringbuffer_t) (n j : Nat) :
    ∀ p, p ≤ j → j < p + n → (∀ i, p ≤ i → i < j → load rb.r i = load rb'.r i) →
    load rb.r j ≠ load rb'.r j → first_moved rb rb' n p = some j := by
  induction n with
  | zero => intro p h1 h2; omega
  | succ n ih =>
    intro p hp hj h hne
    by_cases hpj : p = j
    · subst hpj
      simp [first_moved, hne]
    · have h0 := h p (Nat.le_refl p) (by omega)
      simp only [first_moved, h0, ne_eq, not_true_eq_false, if_false]
      exact ih (p + 1) (by omega) (by omega) (fun i h1 h2 => h i (by omega) h2) hne

/-- Either every lane is empty, or there is a first lane that is not. -/
theorem first_ready (ws rs : List Nat) (level : Nat) :
    (∀ i, i < level → rs[i]? = ws[i]?) ∨
    ∃ j, j < level ∧ rs[j]? ≠ ws[j]? ∧ ∀ i, i < j → rs[i]? = ws[i]? := by
  by_cases h : ∃ j, j < level ∧ rs[j]? ≠ ws[j]?
  · right
    refine ⟨Nat.find h, (Nat.find_spec h).1, (Nat.find_spec h).2, ?_⟩
    intro i hi
    by_contra hc
    exact Nat.find_min h hi ⟨by have := (Nat.find_spec h).1; omega, hc⟩
  · left
    intro i hi
    by_contra hc
    exact h ⟨i, hi, hc⟩

/-- A push that fails a parameter check on an Active buffer leaves everything as it is. -/
theorem Push_parameter (rb : s_ringbuffer_t) (priority : Nat) (data : List Nat) (len : Nat)
    (hact : Active rb)
    (hbad : len > rb.buffer_data_size ∨
      (rb.priority_enable = true ∧ priority ≥ rb.priority_level)) :
    RingBuffer_Push (some rb) priority data len = some (ringbuffer_error_parameter, some rb) := by
  obtain ⟨h1, h2, h3⟩ := hact
  by_cases hlen : len > rb.buffer_data_size
  · simp [RingBuffer_Push, h1, h2, h3, hlen]
  · rcases hbad with h | h
    · exact absurd h hlen
    · simp [RingBuffer_Push, h1, h2, h3, hlen, h.1, h.2]


/-! ### The lane bookkeeping under a push and under a pop -/

/-- A push accepted by lane `k` appends its item to the items stored in lane `k`. -/
theorem lane_inv_push_same (fifo dsize k : Nat) (ws rs buf data : List Nat) (len wv rv : Nat)
    (P D : List (List Nat))
    (h : lane_inv fifo dsize k ws rs buf P D)
    (hwv : ws[k]? = some wv) (hrv : rs[k]? = some rv)
    (hwlt : wv < fifo) (hrlt : rv < fifo) (hroom : (wv + 1) % fifo ≠ rv)
    (hlen : len ≤ dsize) (hdata : len ≤ data.length)
    (hbuf : (wv + k * fifo) * dsize + dsize ≤ buf.length) :
    lane_inv fifo dsize k (ws.set k ((wv + 1) % fifo)) rs
      (buf.take ((wv + k * fifo) * dsize) ++ data.take len
        ++ buf.drop ((wv + k * fifo) * dsize + len))
      (P ++ [data.take len]) D := by
  obtain ⟨wv', rv', hwv', hrv', hle, hn, hidx, hD, hQ⟩ := h
  rw [hwv] at hwv'; rw [hrv] at hrv'
  cases hwv'; cases hrv'
  have hk : k < ws.length := by
    by_contra hc
    rw [List.getElem?_eq_none (by omega)] at hwv; cases hwv
  have hn1 : P.length - D.length + 1 < fifo := by
    by_contra hc
    have he : P.length - D.length + 1 = fifo := by omega
    apply hroom
    rw [hidx, Nat.mod_add_mod, Nat.add_assoc, he, Nat.add_mod_right, Nat.mod_eq_of_lt hrlt]
  have hlen' : (P ++ [data.take len]).length - D.length = P.length - D.length + 1 := by
    simp only [List.length_append, List.length_singleton]; omega
  refine ⟨(wv + 1) % fifo, rv, List.getElem?_set_self hk, hrv, ?_, ?_, ?_, ?_, ?_⟩
  · simp only [List.length_append, List.length_singleton]; omega
  · rw [hlen']; exact hn1
  · rw [hlen', hidx, Nat.mod_add_mod, Nat.add_assoc]
  · rw [List.take_append_of_le_length hle]; exact hD
  · rw [hlen', List.drop_append_of_le_length hle, slots_from_succ _ _ _ _ _ _ hrlt, ← hidx]
    refine List.rel_append ?_ (List.Forall₂.cons ?_ List.Forall₂.nil)
    · rw [slots_from_congr buf _ dsize fifo k _ rv hrlt]
      · exact hQ
      · intro i hi
        apply slot_at_other buf data dsize _ _ len hlen hdata hbuf
        intro heq
        have := (slot_number_inj _ _ _ _ fifo (Nat.mod_lt _ (by omega)) hwlt heq).1
        rw [hidx] at this
        exact cyclic_index_ne rv i _ fifo hi hn this
    · rw [slot_at_written buf data dsize _ len hlen hdata hbuf]
      exact List.prefix_append _ _

/-- A push accepted by another lane does not disturb lane `k`. -/
theorem lane_inv_push_other (fifo dsize k k0 : Nat) (ws rs buf data : List Nat)
    (len wv x : Nat) (P D : List (List Nat))
    (h : lane_inv fifo dsize k ws rs buf P D) (hne : k ≠ k0)
    (hwlt : wv < fifo) (hri : ∀ v ∈ rs, v < fifo)
    (hlen : len ≤ dsize) (hdata : len ≤ data.length)
    (hbuf : (wv + k0 * fifo) * dsize + dsize ≤ buf.length) :
    lane_inv fifo dsize k (ws.set k0 x) rs
      (buf.take ((wv + k0 * fifo) * dsize) ++ data.take len
        ++ buf.drop ((wv + k0 * fifo) * dsize + len))
      P D := by
  obtain ⟨wv', rv', hwv', hrv', hle, hn, hidx, hD, hQ⟩ := h
  have hrlt := hri _ (List.getElem?_mem hrv')
  refine ⟨wv', rv', ?_, hrv', hle, hn, hidx, hD, ?_⟩
  · rw [List.getElem?_set_ne (Ne.symm hne)]; exact hwv'
  · rw [slots_from_congr buf _ dsize fifo k _ rv' hrlt]
    · exact hQ
    · intro i _
      apply slot_at_other buf data dsize _ _ len hlen hdata hbuf
      intro heq
      exact hne (slot_number_inj _ _ _ _ fifo (Nat.mod_lt _ (by omega)) hwlt heq).2

/-- A pop that serves lane `k` appends the slot at the read index to the items handed out
of lane `k`. -/
theorem lane_inv_pop_same (fifo dsize k : Nat) (ws rs buf : List Nat) (rv : Nat)
    (P D : List (List Nat))
    (h : lane_inv fifo dsize k ws rs buf P D)
    (hrv : rs[k]? = some rv) (hne : ws[k]? ≠ some rv) (hrlt : rv < fifo) :
    lane_inv fifo dsize k ws (rs.set k ((rv + 1) % fifo)) buf P
      (D ++ [slot_at buf dsize (rv + k * fifo)]) := by
  obtain ⟨wv', rv', hwv', hrv', hle, hn, hidx, hD, hQ⟩ := h
  rw [hrv] at hrv'
  cases hrv'
  have hk : k < rs.length := by
    by_contra hc
    rw [List.getElem?_eq_none (by omega)] at hrv; cases hrv
  have hpos : P.length - D.length ≠ 0 := by
    intro h0
    apply hne
    rw [hwv', hidx, h0, Nat.add_zero, Nat.mod_eq_of_lt hrlt]
  obtain ⟨n, hn'⟩ : ∃ n, P.length - D.length = n + 1 := ⟨P.length - D.length - 1, by omega⟩
  have hDP : D.length < P.length := by omega
  rw [hn', List.drop_eq_getElem_cons hDP, slots_from, List.forall₂_cons] at hQ
  have hlen' : P.length - (D ++ [slot_at buf dsize (rv + k * fifo)]).length = n := by
    simp only [List.length_append, List.length_singleton]; omega
  refine ⟨wv', (rv + 1) % fifo, hwv', List.getElem?_set_self hk, ?_, ?_, ?_, ?_, ?_⟩
  · simp only [List.length_append, List.length_singleton]; omega
  · rw [hlen']; omega
  · rw [hlen', hidx, hn', Nat.mod_add_mod]
    congr 1
    omega
  · simp only [List.length_append, List.length_singleton]
    rw [List.take_succ, List.getElem?_eq_getElem hDP]
    exact List.rel_append hD (List.Forall₂.cons hQ.1 List.Forall₂.nil)
  · rw [hlen']
    simp only [List.length_append, List.length_singleton]
    exact hQ.2

/-- A pop that serves another lane does not disturb lane `k`. -/
theorem lane_inv_pop_other (fifo dsize k j x : Nat) (ws rs buf : List Nat)
    (P D : List (List Nat))
    (h : lane_inv fifo dsize k ws rs buf P D) (hne : k ≠ j) :
    lane_inv fifo dsize k ws (rs.set j x) buf P D := by
  obtain ⟨wv', rv', hwv', hrv', hrest⟩ := h
  exact ⟨wv', rv', hwv', by rw [List.getElem?_set_ne (Ne.symm hne)]; exact hrv', hrest⟩


/-! ### One call keeps the invariant -/

theorem fifo_inv_push (rb : s_ringbuffer_t) (log : List event_t) (priority : Nat)
    (data : List Nat) (len : Nat) (hinv : fifo_inv rb log) (hdata : len ≤ data.length) :
    ∃ rb' ev, step rb (.push priority data len) = some (rb', ev) ∧ fifo_inv rb' (log ++ ev) ∧
      rb'.priority_level = rb.priority_level ∧
      rb'.buffer_data_size = rb.buffer_data_size := by
  obtain ⟨hwf, hpe, hfifo, ws, rs, buf, hw, hr, hb, hlanes⟩ := hinv
  have hact : Active rb := by simp [Active, hw, hr, hb]
  by_cases hbad : len > rb.buffer_data_size ∨
      (rb.priority_enable = true ∧ priority ≥ rb.priority_level)
  · have hp := Push_parameter rb priority data len hact hbad
    refine ⟨rb, [], ?_, ?_, rfl, rfl⟩
    · simp [step, hp]
    · rw [List.append_nil]
      exact ⟨hwf, hpe, hfifo, ws, rs, buf, hw, hr, hb, hlanes⟩
  · simp only [not_or, not_and, not_le, gt_iff_lt, not_lt, ge_iff_le] at hbad
    obtain ⟨hlen, hprio'⟩ := hbad
    have hprio := hprio' hpe
    have hlane : lane_of rb priority = priority := by simp [lane_of, hpe]
    have hlc : lane_count rb = rb.priority_level := by simp [lane_count, hpe]
    obtain ⟨ws0, rs0, buf0, wv, rv, hw0, hr0, hb0, hwv, hrv, hwlt, hrlt, hpush⟩ :=
      Push_wf rb priority data len hwf hlen hdata (fun _ => hprio)
    obtain ⟨e, rb', hpush', hwf', hpe', hlv', hr', hd', hf'⟩ :=
      Push_wf_preserved rb priority data len hwf hlen hdata (fun _ => hprio)
    obtain ⟨ws1, rs1, buf1, hw1, hr1, hb1, hwl, hrl, hbl, hwi, hri, hl, hf, hd⟩ :=
      (well_formed_iff rb).mp hwf
    rw [hw] at hw0 hw1; rw [hr] at hr0 hr1; rw [hb] at hb0 hb1
    cases hw0; cases hr0; cases hb0; cases hw1; cases hr1; cases hb1
    rw [hlane] at hwv hrv hpush
    by_cases hfull : (wv + 1) % rb.buffer_fifo_size = rv
    · rw [if_pos hfull] at hpush
      refine ⟨rb, [], ?_, ?_, rfl, rfl⟩
      · simp [step, hpush]
      · rw [List.append_nil]
        exact ⟨hwf, hpe, hfifo, ws, rs, buf, hw, hr, hb, hlanes⟩
    · rw [if_neg hfull] at hpush
      rw [hpush] at hpush'
      simp only [Option.some.injEq, Prod.mk.injEq] at hpush'
      obtain ⟨-, hrb'⟩ := hpush'
      have hbnd := slot_in_bounds wv priority (lane_count rb) _ rb.buffer_data_size hwlt
        (by omega)
      rw [← hbl] at hbnd
      refine ⟨rb', [.pushed priority (data.take len)], ?_, ?_, hlv', hd'⟩
      · simp only [step, hpush, hlane, if_true, hrb']
      · refine ⟨hwf', by rw [hpe']; exact hpe, by rw [hf']; exact hfifo, ?_⟩
        refine ⟨ws.set priority ((wv + 1) % rb.buffer_fifo_size), rs, _,
          by rw [← hrb'], by rw [hr']; exact hr, by rw [← hrb'], ?_⟩
        intro k hk
        rw [hlv'] at hk
        rw [hf', hd', pushed_to_append, delivered_from_append]
        have hD : delivered_from k [event_t.pushed priority (data.take len)] = [] := rfl
        rw [hD, List.append_nil]
        by_cases hkp : k = priority
        · subst hkp
          have hP : pushed_to k [event_t.pushed k (data.take len)] = [data.take len] := by
            simp [pushed_to]
          rw [hP]
          exact lane_inv_push_same _ _ k ws rs buf data len wv rv _ _ (hlanes k hk) hwv hrv
            hwlt hrlt hfull hlen hdata hbnd
        · have hP : pushed_to k [event_t.pushed priority (data.take len)] = [] := by
            simp [pushed_to, Ne.symm hkp]
          rw [hP, List.append_nil]
          exact lane_inv_push_other _ _ k priority ws rs buf data len wv _ _ _ (hlanes k hk)
            hkp hwlt hri hlen hdata hbnd

theorem fifo_inv_pop (rb : s_ringbuffer_t) (log : List event_t) (out : List Nat)
    (hinv : fifo_inv rb log) (hout : rb.buffer_data_size ≤ out.length) :
    ∃ rb' ev, step rb (.pop out) = some (rb', ev) ∧ fifo_inv rb' (log ++ ev) ∧
      rb'.priority_level = rb.priority_level ∧
      rb'.buffer_data_size = rb.buffer_data_size := by
  obtain ⟨hwf, hpe, hfifo, ws, rs, buf, hw, hr, hb, hlanes⟩ := hinv
  have hlc : lane_count rb = rb.priority_level := by simp [lane_count, hpe]
  obtain ⟨ws1, rs1, buf1, hw1, hr1, hb1, hwl, hrl, hbl, hwi, hri, hl, hf, hd⟩ :=
    (well_formed_iff rb).mp hwf
  rw [hw] at hw1; rw [hr] at hr1; rw [hb] at hb1
  cases hw1; cases hr1; cases hb1
  rcases first_ready ws rs rb.priority_level with hall | ⟨j, hj, hjne, hjmin⟩
  · -- every lane is empty
    have hpop := Pop_priority_empty rb out hpe (fun i hi => by
      have hiw : i < ws.length := by omega
      refine ⟨ws[i], ?_, ?_⟩
      · simp only [load, hr]; rw [hall i hi]; exact List.getElem?_eq_getElem hiw
      · simp only [load, hw]; exact List.getElem?_eq_getElem hiw)
    have hmoved := first_moved_none rb rb (lane_count rb) 0 (fun _ _ _ => rfl)
    refine ⟨rb, [], ?_, ?_, rfl, rfl⟩
    · simp [step, hpop, hmoved]
    · rw [List.append_nil]
      exact ⟨hwf, hpe, hfifo, ws, rs, buf, hw, hr, hb, hlanes⟩
  · -- lane `j` is the first lane holding data
    have hjr : j < rs.length := by omega
    have hjw : j < ws.length := by omega
    have hrv := List.getElem?_eq_getElem hjr
    have hwv := List.getElem?_eq_getElem hjw
    have hrlt := hri _ (List.getElem?_mem hrv)
    have hne : rs[j] ≠ ws[j] := by
      intro h
      apply hjne
      rw [hrv, hwv, h]
    have hbnd := slot_in_bounds rs[j] j (lane_count rb) _ rb.buffer_data_size hrlt (by omega)
    rw [← hbl] at hbnd
    have hpop := Pop_priority_hit rb out ws rs buf j rs[j] ws[j] hpe hw hr hb hj
      (fun i hi => by
        have hiw : i < ws.length := by omega
        exact ⟨ws[i], by rw [hjmin i hi]; exact List.getElem?_eq_getElem hiw,
          List.getElem?_eq_getElem hiw⟩)
      hrv hwv hne hrlt hf hd hl hbnd hout
    have hslot : (slot_at buf rb.buffer_data_size (rs[j] + j * rb.buffer_fifo_size)).length
        = rb.buffer_data_size := by
      simp only [slot_at, List.length_take, List.length_drop]; omega
    have hnext := next_index_ne rs[j] _ hrlt hfifo
    have hmoved : first_moved rb
        { rb with r := .live (rs.set j ((rs[j] + 1) % rb.buffer_fifo_size)) }
        (lane_count rb) 0 = some j := by
      apply first_moved_some _ _ _ j 0 (Nat.zero_le j) (by omega)
      · intro i _ hi
        simp only [load, hr]
        rw [List.getElem?_set_ne (by omega)]
      · simp only [load, hr]
        rw [List.getElem?_set_self hjr, hrv]
        intro h
        exact hnext (Option.some.inj h).symm
    refine ⟨{ rb with r := .live (rs.set j ((rs[j] + 1) % rb.buffer_fifo_size)) },
      [.delivered j (slot_at buf rb.buffer_data_size (rs[j] + j * rb.buffer_fifo_size))],
      ?_, ?_, rfl, rfl⟩
    · simp only [step, hpop, hmoved, if_true]
      rw [List.take_left' hslot]
    · have hset : ∀ x ∈ rs.set j ((rs[j] + 1) % rb.buffer_fifo_size),
          x < rb.buffer_fifo_size := by
        intro x hx
        rcases List.mem_or_eq_of_mem_set hx with h | h
        · exact hri x h
        · rw [h]; exact Nat.mod_lt _ (by omega)
      refine ⟨?_, hpe, hfifo, ws, _, buf, hw, rfl, hb, ?_⟩
      · rw [well_formed_iff]
        refine ⟨ws, _, buf, hw, rfl, hb, hwl, ?_, hbl, hwi, hset, hl, hf, hd⟩
        simpa [lane_count] using hrl
      · intro k hk
        rw [pushed_to_append, delivered_from_append]
        have hP : pushed_to k [event_t.delivered j
            (slot_at buf rb.buffer_data_size (rs[j] + j * rb.buffer_fifo_size))] = [] := rfl
        rw [hP, List.append_nil]
        by_cases hkj : k = j
        · subst hkj
          have hD : delivered_from k [event_t.delivered k
              (slot_at buf rb.buffer_data_size (rs[k] + k * rb.buffer_fifo_size))]
              = [slot_at buf rb.buffer_data_size (rs[k] + k * rb.buffer_fifo_size)] := by
            simp [delivered_from]
          rw [hD]
          exact lane_inv_pop_same _ _ k ws rs buf rs[k] _ _ (hlanes k hk) hrv
            (by rw [hwv]; intro h; exact hne (Option.some.inj h).symm) hrlt
        · have hD : delivered_from k [event_t.delivered j
              (slot_at buf rb.buffer_data_size (rs[j] + j * rb.buffer_fifo_size))] = [] := by
            simp [delivered_from, Ne.symm hkj]
          rw [hD, List.append_nil]
          exact lane_inv_pop_other _ _ k j _ ws rs buf _ _ (hlanes k hk) hkj

/-- A sequence of calls runs to completion and keeps the invariant. -/
theorem fifo_inv_run (calls : List call_t) :
    ∀ (rb : s_ringbuffer_t) (log : List event_t), fifo_inv rb log →
    (∀ c ∈ calls, call_ok rb.buffer_data_size c) →
    ∃ rb' log', run rb log calls = some (rb', log') ∧ fifo_inv rb' log' ∧
      rb'.priority_level = rb.priority_level := by
  induction calls with
  | nil => intro rb log h _; exact ⟨rb, log, rfl, h, rfl⟩
  | cons c cs ih =>
    intro rb log hinv hcalls
    have hc := hcalls c (List.mem_cons_self _ _)
    have hstep : ∃ rb' ev, step rb c = some (rb', ev) ∧ fifo_inv rb' (log ++ ev) ∧
        rb'.priority_level = rb.priority_level ∧
        rb'.buffer_data_size = rb.buffer_data_size := by
      cases c with
      | push priority data len => exact fifo_inv_push rb log priority data len hinv hc
      | pop out => exact fifo_inv_pop rb log out hinv hc
    obtain ⟨rb1, ev, hs, hinv1, hlv, hds⟩ := hstep
    obtain ⟨rb', log', hrun, hinv', hlv'⟩ := ih rb1 (log ++ ev) hinv1
      (fun c hcm => by rw [hds]; exact hcalls c (List.mem_cons_of_mem _ hcm))
    exact ⟨rb', log', by simp [run, hs, hrun], hinv', by rw [hlv', hlv]⟩


/-! ### `RingBuffer_Pop` with priority disabled, and the round trip on a fresh buffer -/

/-- Explicit result of `RingBuffer_Pop` on a well-formed buffer with priority disabled: the
emptiness test compares the index after the read index with the write index. -/
theorem Pop_disabled_wf (rb : s_ringbuffer_t) (out : List Nat)
    (hpe : rb.priority_enable = false) (hwf : well_formed rb)
    (hout : rb.buffer_data_size ≤ out.length) :
    ∃ ws rs buf wv rv, rb.w = .live ws ∧ rb.r = .live rs ∧ rb.pbuffer = .live buf ∧
      ws[0]? = some wv ∧ rs[0]? = some rv ∧
      RingBuffer_Pop (some rb) (some out) =
        if (rv + 1) % rb.buffer_fifo_size = wv then
          some (ringbuffer_error_no_data, some rb, some out)
        else
          some (ringbuffer_error_ok,
            some { rb with r := .live (rs.set 0 ((rv + 1) % rb.buffer_fifo_size)) },
            some (slot_at buf rb.buffer_data_size rv ++ out.drop rb.buffer_data_size)) := by
  obtain ⟨ws, rs, buf, hw, hr, hb, hwl, hrl, hbl, hwi, hri, hl, hf, hd⟩ :=
    (well_formed_iff rb).mp hwf
  have hlc : lane_count rb = 1 := by simp [lane_count, hpe]
  have h0w : 0 < ws.length := by omega
  have h0r : 0 < rs.length := by omega
  have hwv := List.getElem?_eq_getElem h0w
  have hrv := List.getElem?_eq_getElem h0r
  have hrlt := hri _ (List.getElem?_mem hrv)
  have hoff := offset_lt rs[0] 0 _ _ hrlt hf (by omega) hd
  have hnext := next_index_eq' rs[0] _ hrlt hf
  have hbnd := slot_in_bounds rs[0] 0 (lane_count rb) _ rb.buffer_data_size hrlt (by omega)
  rw [← hbl] at hbnd
  simp only [Nat.zero_mul, Nat.add_zero] at hoff hbnd
  refine ⟨ws, rs, buf, ws[0], rs[0], hw, hr, hb, hwv, hrv, ?_⟩
  simp only [RingBuffer_Pop, hpe, hw, hr, hb, load, hwv, hrv, if_true, Option.bind_eq_bind,
    Option.some_bind, hnext, Nat.mod_eq_of_lt hoff, memcpy_from, memcpy_out, store]
  split
  · rfl
  · have hmin : rb.buffer_data_size ≤ buf.length - rs[0] * rb.buffer_data_size := by omega
    simp [hbnd, h0r, slot_at, List.length_take, List.length_drop, Nat.min_eq_left hmin, hout,
      hpe]

/-- With priority disabled and at least two slots, a pop on a freshly registered buffer
returns `ringbuffer_error_ok` and moves the read index. -/
theorem Pop_fresh_disabled (old rb0 : s_ringbuffer_t) (level fifo dsize : Nat)
    (mw mr mb : Option Nat) (out : List Nat)
    (hreg : RingBuffer_Register (some old) false level fifo dsize mw mr mb
      = some (ringbuffer_error_ok, some rb0))
    (hlevel : level < 256) (hfifo : 2 ≤ fifo ∧ fifo < 256) (hdsize : dsize < 256)
    (hout : dsize ≤ out.length) :
    ∃ rb out', RingBuffer_Pop (some rb0) (some out) = some (ringbuffer_error_ok, some rb, some out')
      ∧ load rb.r 0 = some 1 ∧ load rb.w 0 = some 0 := by
  have hwf := Register_well_formed old false level fifo dsize mw mr mb rb0 hreg hlevel
    ⟨by omega, hfifo.2⟩ hdsize
  obtain ⟨rfl, -⟩ := Register_ok old false level fifo dsize mw mr mb rb0 hreg
  obtain ⟨ws, rs, buf, wv, rv, hw, hr, hb, hwv, hrv, hpop⟩ := Pop_disabled_wf _ out rfl hwf hout
  simp only at hw hr hb
  cases hw; cases hr; cases hb
  simp at hwv hrv
  subst hwv; subst hrv
  simp only at hpop
  have h1 : (0 + 1) % fifo = 1 := Nat.mod_eq_of_lt (by omega)
  rw [h1, if_neg Nat.one_ne_zero] at hpop
  exact ⟨_, _, hpop, by simp [load], by simp [load]⟩

/-- With priority disabled and at least two slots, a push on a freshly registered buffer is
accepted and the pop that follows returns `ringbuffer_error_no_data`, leaving the output
array as it was. -/
theorem round_trip_fresh_disabled (old rb0 : s_ringbuffer_t) (level fifo dsize : Nat)
    (mw mr mb : Option Nat) (priority : Nat) (data out : List Nat) (len : Nat)
    (hreg : RingBuffer_Register (some old) false level fifo dsize mw mr mb
      = some (ringbuffer_error_ok, some rb0))
    (hlevel : level < 256) (hfifo : 2 ≤ fifo ∧ fifo < 256) (hdsize : dsize < 256)
    (hlen : len ≤ dsize) (hdata : len ≤ data.length) (hout : dsize ≤ out.length) :
    ∃ rb, RingBuffer_Push (some rb0) priority data len = some (ringbuffer_error_ok, some rb) ∧
      RingBuffer_Pop (some rb) (some out) = some (ringbuffer_error_no_data, some rb, some out) := by
  have hwf := Register_well_formed old false level fifo dsize mw mr mb rb0 hreg hlevel
    ⟨by omega, hfifo.2⟩ hdsize
  obtain ⟨rfl, -⟩ := Register_ok old false level fifo dsize mw mr mb rb0 hreg
  obtain ⟨ws, rs, buf, wv, rv, hw, hr, hb, hwv, hrv, -, -, hpush⟩ :=
    Push_wf _ priority data len hwf hlen hdata (fun h => by simp at h)
  obtain ⟨e, rb', hpush', hwf', hpe', -, hr', hd', hf'⟩ :=
    Push_wf_preserved _ priority data len hwf hlen hdata (fun h => by simp at h)
  simp only at hw hr hb hpe' hr' hd' hf'
  cases hw; cases hr; cases hb
  simp [lane_of] at hwv hrv
  subst hwv; subst hrv
  have h1 : (0 + 1) % fifo = 1 := Nat.mod_eq_of_lt (by omega)
  simp only [h1] at hpush
  rw [if_neg Nat.one_ne_zero] at hpush
  rw [hpush] at hpush'
  simp only [Option.some.injEq, Prod.mk.injEq] at hpush'
  obtain ⟨-, hrb'⟩ := hpush'
  refine ⟨rb', by rw [hpush, hrb'], ?_⟩
  obtain ⟨ws, rs, buf, wv, rv, hw, hr, hb, hwv, hrv, hpop⟩ :=
    Pop_disabled_wf rb' out hpe' hwf' (by rw [hd']; exact hout)
  rw [hr'] at hr
  cases hr
  rw [← hrb'] at hw
  simp only [lane_of] at hw
  cases hw
  simp at hwv hrv
  subst hwv; subst hrv
  rw [hf', h1, if_pos rfl] at hpop
  exact hpop


/-! ### Runs of pushes -/

/-- Result codes of a run of pushes on one lane that holds `j` items and whose read index
is `0`: the next `buffer_fifo_size - 1 - j` calls succeed, every later one is refused. -/
theorem push_run_from (priority : Nat) (items : List (List Nat × Nat)) :
    ∀ (rb : s_ringbuffer_t) (j : Nat), well_formed rb →
    (rb.priority_enable = true → priority < rb.priority_level) →
    (∀ it ∈ items, it.2 ≤ rb.buffer_data_size ∧ it.2 ≤ it.1.length) →
    load rb.w (lane_of rb priority) = some j →
    load rb.r (lane_of rb priority) = some 0 →
    ∃ m, push_run (some rb) priority items =
      some (List.replicate (min items.length (rb.buffer_fifo_size - 1 - j)) ringbuffer_error_ok
        ++ List.replicate (items.length - (rb.buffer_fifo_size - 1 - j))
            ringbuffer_error_no_memory, m) := by
  induction items with
  | nil => intro rb j _ _ _ _ _; exact ⟨some rb, by simp [push_run]⟩
  | cons it rest ih =>
    intro rb j hwf hlane hitems hw hr
    obtain ⟨data, len⟩ := it
    have hit := hitems (data, len) (List.mem_cons_self _ _)
    have hrest : ∀ it ∈ rest, it.2 ≤ rb.buffer_data_size ∧ it.2 ≤ it.1.length :=
      fun it h => hitems it (List.mem_cons_of_mem _ h)
    obtain ⟨ws, rs, buf, wv, rv, hws, hrs, hbs, hwv, hrv, hwlt, hrlt, hpush⟩ :=
      Push_wf rb priority data len hwf hit.1 hit.2 hlane
    obtain ⟨e, rb', hpush', hwf', hpe', hlv', hr', hd', hf'⟩ :=
      Push_wf_preserved rb priority data len hwf hit.1 hit.2 hlane
    simp only [load, hws, hrs] at hw hr
    rw [hwv] at hw; rw [hrv] at hr
    have e1 : wv = j := Option.some.inj hw
    have e2 : rv = 0 := Option.some.inj hr
    subst e1; subst e2
    by_cases hfull : (wv + 1) % rb.buffer_fifo_size = 0
    · -- the lane is full: the call is refused and the state is unchanged
      have hj : rb.buffer_fifo_size - 1 - wv = 0 := by
        by_contra hc
        rw [Nat.mod_eq_of_lt (by omega)] at hfull
        omega
      rw [if_pos hfull] at hpush
      obtain ⟨m, hm⟩ := ih rb wv hwf hlane hrest (by simp [load, hws, hwv])
        (by simp [load, hrs, hrv])
      refine ⟨m, ?_⟩
      simp [push_run, hpush, hm, hj, List.replicate_succ]
    · rw [if_neg hfull] at hpush
      have hlt : wv + 1 < rb.buffer_fifo_size := by
        by_contra hc
        have : wv + 1 = rb.buffer_fifo_size := by omega
        rw [this, Nat.mod_self] at hfull
        exact hfull rfl
      rw [hpush] at hpush'
      simp only [Option.some.injEq, Prod.mk.injEq] at hpush'
      obtain ⟨-, hrb'⟩ := hpush'
      have hlane_eq : lane_of rb' priority = lane_of rb priority := by
        simp [lane_of, hpe']
      have hkw : lane_of rb priority < ws.length := by
        by_contra hc
        rw [List.getElem?_eq_none (by omega)] at hwv; cases hwv
      obtain ⟨m, hm⟩ := ih rb' (wv + 1) hwf' (by rw [hpe', hlv']; exact hlane)
        (by rw [hd']; exact hrest)
        (by rw [hlane_eq, ← hrb']; simp [load, hkw, Nat.mod_eq_of_lt hlt])
        (by rw [hlane_eq, hr', hrs]; simp [load, hrv])
      refine ⟨m, ?_⟩
      rw [hf'] at hm
      have h1 : min (rest.length + 1) (rb.buffer_fifo_size - 1 - wv)
          = min rest.length (rb.buffer_fifo_size - 1 - (wv + 1)) + 1 := by omega
      have h2 : rest.length + 1 - (rb.buffer_fifo_size - 1 - wv)
          = rest.length - (rb.buffer_fifo_size - 1 - (wv + 1)) := by omega
      rw [push_run, hpush, hrb']
      simp only [Option.bind_eq_bind, Option.some_bind, hm]
      simp [h1, h2, List.replicate_succ]


/-! ### Runs of push-pop pairs -/

/-- Push-then-pop pairs on one lane of a priority-mode buffer all of whose lanes are empty:
every call succeeds, every pop hands back the payload just pushed, and both indices of the
lane advance by one, modulo `buffer_fifo_size`, with every pair. -/
theorem push_pop_run_from (priority : Nat) (items : List (List Nat × Nat)) :
    ∀ (rb : s_ringbuffer_t) (out : List Nat) (c : Nat), well_formed rb →
    rb.priority_enable = true → 2 ≤ rb.buffer_fifo_size → priority < rb.priority_level →
    rb.r = rb.w → load rb.w priority = some c → rb.buffer_data_size ≤ out.length →
    (∀ it ∈ items, it.2 ≤ rb.buffer_data_size ∧ it.2 ≤ it.1.length) →
    ∃ log rb' out',
      push_pop_run (some rb) priority (some out) items = some (log, some rb', some out') ∧
      List.Forall₂ (fun it entry => entry.1 = ringbuffer_error_ok ∧
          entry.2.1 = ringbuffer_error_ok ∧
          ∃ o, entry.2.2 = some o ∧ o.take it.2 = it.1.take it.2) items log ∧
      load rb'.w priority = some ((c + items.length) % rb.buffer_fifo_size) ∧
      load rb'.r priority = some ((c + items.length) % rb.buffer_fifo_size) := by
  induction items with
  | nil =>
    intro rb out c hwf _ _ _ hrw hc _ _
    have hclt : c < rb.buffer_fifo_size := by
      obtain ⟨ws, rs, buf, hw, hr, hb, hwl, hrl, hbl, hwi, hri, hl, hf, hd⟩ :=
        (well_formed_iff rb).mp hwf
      simp only [load, hw] at hc
      exact hwi _ (List.getElem?_mem hc)
    refine ⟨[], rb, out, rfl, List.Forall₂.nil, ?_, ?_⟩
    · simpa [Nat.mod_eq_of_lt hclt] using hc
    · rw [hrw]; simpa [Nat.mod_eq_of_lt hclt] using hc
  | cons it rest ih =>
    intro rb out c hwf hpe hfifo hprio hrw hc hout hitems
    obtain ⟨data, len⟩ := it
    have hit := hitems (data, len) (List.mem_cons_self _ _)
    have hrest : ∀ it ∈ rest, it.2 ≤ rb.buffer_data_size ∧ it.2 ≤ it.1.length :=
      fun it h => hitems it (List.mem_cons_of_mem _ h)
    simp only at hit
    have hlane : lane_of rb priority = priority := by simp [lane_of, hpe]
    have hlc : lane_count rb = rb.priority_level := by simp [lane_count, hpe]
    obtain ⟨ws, rs, buf, wv, rv, hw, hr, hb, hwv, hrv, hwlt, hrlt, hpush⟩ :=
      Push_wf rb priority data len hwf hit.1 hit.2 (fun _ => hprio)
    obtain ⟨ws', rs', buf', hw', hr', hb', hwl, hrl, hbl, hwi, hri, hl, hf, hd⟩ :=
      (well_formed_iff rb).mp hwf
    rw [hw] at hw'; rw [hr] at hr'; rw [hb] at hb'
    cases hw'; cases hr'; cases hb'
    rw [hlane] at hwv hrv hpush
    have hrsws : rs = ws := by
      rw [hw, hr] at hrw
      exact ptr_t.live.inj hrw
    subst hrsws
    simp only [load, hw] at hc
    have e1 : wv = c := Option.some.inj (hwv.symm.trans hc)
    have e2 : c = rv := Option.some.inj (hc.symm.trans hrv)
    subst e1
    subst e2
    have hnext := next_index_ne wv _ hwlt hfifo
    rw [if_neg hnext] at hpush
    have hp : priority < rs.length := by omega
    have hbnd := slot_in_bounds wv priority (lane_count rb) _ rb.buffer_data_size hwlt
      (by omega)
    -- the state after the push
    have hpop := Pop_priority_hit
      { rb with
        w := .live (rs.set priority ((wv + 1) % rb.buffer_fifo_size)),
        pbuffer := .live
          (buf.take ((wv + priority * rb.buffer_fifo_size) * rb.buffer_data_size)
            ++ data.take len
            ++ buf.drop ((wv + priority * rb.buffer_fifo_size) * rb.buffer_data_size + len)) }
      out (rs.set priority ((wv + 1) % rb.buffer_fifo_size)) rs _ priority wv
      ((wv + 1) % rb.buffer_fifo_size) hpe rfl hr rfl hprio
      (fun i hi => by
        have hir : i < rs.length := by omega
        exact ⟨rs[i], List.getElem?_eq_getElem hir, by
          rw [List.getElem?_set_ne (by omega)]; exact List.getElem?_eq_getElem hir⟩)
      hrv (by rw [List.getElem?_set_self hp]) (Ne.symm hnext) hwlt hf hd hl
      (by simp only [List.length_append, List.length_take, List.length_drop]; omega) hout
    simp only at hpop
    rw [slot_at_written buf data _ _ len hit.1 hit.2 (by omega)] at hpop
    -- the state after the pop satisfies the hypotheses again
    have hslot : (slot_at buf rb.buffer_data_size (wv + priority * rb.buffer_fifo_size)).length
        = rb.buffer_data_size := by
      simp only [slot_at, List.length_take, List.length_drop]; omega
    have hlen2 : (data.take len).length = len := by simp; omega
    obtain ⟨log, rb', out', hrun, hlog, hwfin, hrfin⟩ := ih
      { rb with
        w := .live (rs.set priority ((wv + 1) % rb.buffer_fifo_size)),
        r := .live (rs.set priority ((wv + 1) % rb.buffer_fifo_size)),
        pbuffer := .live
          (buf.take ((wv + priority * rb.buffer_fifo_size) * rb.buffer_data_size)
            ++ data.take len
            ++ buf.drop ((wv + priority * rb.buffer_fifo_size) * rb.buffer_data_size + len)) }
      (data.take len
        ++ (slot_at buf rb.buffer_data_size (wv + priority * rb.buffer_fifo_size)).drop len
        ++ out.drop rb.buffer_data_size)
      ((wv + 1) % rb.buffer_fifo_size)
      (by
        rw [well_formed_iff]
        have hset : ∀ x ∈ rs.set priority ((wv + 1) % rb.buffer_fifo_size),
            x < rb.buffer_fifo_size := by
          intro x hx
          rcases List.mem_or_eq_of_mem_set hx with h | h
          · exact hwi x h
          · rw [h]; exact Nat.mod_lt _ (by omega)
        refine ⟨_, _, _, rfl, rfl, rfl, ?_, ?_, ?_, hset, hset, hl, hf, hd⟩
        · simpa [lane_count] using hwl
        · simpa [lane_count] using hwl
        · simp only [List.length_append, List.length_take, List.length_drop, lane_count]
            at hbl hbnd ⊢
          omega)
      hpe hfifo hprio rfl
      (by simp [load, hp])
      (by simp only [List.length_append, List.length_drop, hlen2, hslot]; omega)
      hrest
    refine ⟨(ringbuffer_error_ok, ringbuffer_error_ok,
      some (data.take len
        ++ (slot_at buf rb.buffer_data_size (wv + priority * rb.buffer_fifo_size)).drop len
        ++ out.drop rb.buffer_data_size)) :: log, rb', out', ?_, ?_, ?_, ?_⟩
    · rw [push_pop_run, hpush]
      simp only [Option.bind_eq_bind, Option.some_bind, hpop, hrun]
    · refine List.Forall₂.cons ⟨rfl, rfl, _, rfl, ?_⟩ hlog
      simp only [List.append_assoc]
      rw [List.take_append_of_le_length (by omega), List.take_of_length_le (by omega)]
    · rw [hwfin]
      simp only [List.length_cons, Nat.mod_add_mod]
      congr 2
      omega
    · rw [hrfin]
      simp only [List.length_cons, Nat.mod_add_mod]
      congr 2
      omega


/-! ### Frame of the scan, and `RingBuffer_Pop` with priority disabled on a live buffer -/

/-- The scan of `RingBuffer_Pop` changes no field of the handle other than `r`. -/
theorem Pop_scan_frame (rb : s_ringbuffer_t) (out : List Nat) (n : Nat) :
    ∀ (p : Nat) (rb' : s_ringbuffer_t) (out' : List Nat),
    Pop_scan rb out n p = some (rb', out') → ∃ r', rb' = { rb with r := r' } := by
  induction n with
  | zero =>
    intro p rb' out' h
    simp only [Pop_scan, Option.some.injEq, Prod.mk.injEq] at h
    exact ⟨rb.r, h.1.symm⟩
  | succ n ih =>
    intro p rb' out' h
    simp only [Pop_scan, Option.bind_eq_bind, Option.bind_eq_some] at h
    obtain ⟨rp, -, wp, -, h⟩ := h
    split at h
    · simp only [Option.bind_eq_some, Option.some.injEq, Prod.mk.injEq] at h
      obtain ⟨_, -, _, -, r', -, h, -⟩ := h
      exact ⟨r', h.symm⟩
    · exact ih _ _ _ h

/-- Explicit result of `RingBuffer_Pop` with priority disabled on a buffer whose three
blocks are live, whose read index is below `buffer_fifo_size` and whose data block holds
`buffer_fifo_size` slots. -/
theorem Pop_disabled_live (rb : s_ringbuffer_t) (out ws rs buf : List Nat) (wv rv : Nat)
    (hpe : rb.priority_enable = false)
    (hw : rb.w = .live ws) (hr : rb.r = .live rs) (hb : rb.pbuffer = .live buf)
    (hwv : ws[0]? = some wv) (hrv : rs[0]? = some rv)
    (hrlt : rv < rb.buffer_fifo_size) (hf : rb.buffer_fifo_size < 256)
    (hd : rb.buffer_data_size < 256)
    (hbuf : rb.buffer_fifo_size * rb.buffer_data_size ≤ buf.length)
    (hout : rb.buffer_data_size ≤ out.length) :
    RingBuffer_Pop (some rb) (some out) =
      if (rv + 1) % rb.buffer_fifo_size = wv then
        some (ringbuffer_error_no_data, some rb, some out)
      else
        some (ringbuffer_error_ok,
          some { rb with r := .live (rs.set 0 ((rv + 1) % rb.buffer_fifo_size)) },
          some (slot_at buf rb.buffer_data_size rv ++ out.drop rb.buffer_data_size)) := by
  have h0r : 0 < rs.length := by
    by_contra hc
    rw [List.getElem?_eq_none (by omega)] at hrv; cases hrv
  have hoff := offset_lt rv 0 _ _ hrlt hf (by omega) hd
  have hnext := next_index_eq' rv _ hrlt hf
  have hbnd := slot_in_bounds rv 0 1 rb.buffer_fifo_size rb.buffer_data_size hrlt (by omega)
  simp only [Nat.zero_mul, Nat.add_zero, Nat.one_mul] at hoff hbnd
  have hbnd' : rv * rb.buffer_data_size + rb.buffer_data_size ≤ buf.length := by omega
  simp only [RingBuffer_Pop, hpe, hw, hr, hb, load, hwv, hrv, if_true, Option.bind_eq_bind,
    Option.some_bind, hnext, Nat.mod_eq_of_lt hoff, memcpy_from, memcpy_out, store]
  split
  · rfl
  · have hmin : rb.buffer_data_size ≤ buf.length - rv * rb.buffer_data_size := by omega
    simp [hbnd', h0r, slot_at, List.length_take, List.length_drop, Nat.min_eq_left hmin, hout,
      hpe]

/-! ### Every call keeps the representation invariant -/

/-- Moving one read index to a value below `buffer_fifo_size` keeps the representation
invariant. -/
theorem well_formed_set_r (rb : s_ringbuffer_t) (rs : List Nat) (j x : Nat)
    (hwf : well_formed rb) (hr : rb.r = .live rs) (hx : x < rb.buffer_fifo_size) :
    well_formed { rb with r := .live (rs.set j x) } := by
  obtain ⟨ws, rs', buf, hw, hr', hb, hwl, hrl, hbl, hwi, hri, hl, hf, hd⟩ :=
    (well_formed_iff rb).mp hwf
  rw [hr] at hr'
  cases hr'
  rw [well_formed_iff]
  refine ⟨ws, _, buf, hw, rfl, hb, hwl, ?_, hbl, hwi, ?_, hl, hf, hd⟩
  · simpa [lane_count] using hrl
  · intro v hv
    rcases List.mem_or_eq_of_mem_set hv with h | h
    · exact hri v h
    · rw [h]; exact hx

/-- On a well-formed buffer `RingBuffer_Pop` either changes nothing, or it serves one lane:
it hands out the slot at the read index of that lane and advances that read index. -/
theorem Pop_wf_cases (rb : s_ringbuffer_t) (out rs buf : List Nat)
    (hwf : well_formed rb) (hr : rb.r = .live rs) (hb : rb.pbuffer = .live buf)
    (hout : rb.buffer_data_size ≤ out.length) :
    (∃ e, RingBuffer_Pop (some rb) (some out) = some (e, some rb, some out)) ∨
    ∃ j rv, j < lane_count rb ∧ rs[j]? = some rv ∧ rv < rb.buffer_fifo_size ∧
      RingBuffer_Pop (some rb) (some out) =
        some (ringbuffer_error_ok,
          some { rb with r := .live (rs.set j ((rv + 1) % rb.buffer_fifo_size)) },
          some (slot_at buf rb.buffer_data_size (rv + j * rb.buffer_fifo_size)
            ++ out.drop rb.buffer_data_size)) := by
  obtain ⟨ws, rs', buf', hw, hr', hb', hwl, hrl, hbl, hwi, hri, hl, hf, hd⟩ :=
    (well_formed_iff rb).mp hwf
  rw [hr] at hr'; rw [hb] at hb'
  cases hr'; cases hb'
  by_cases hpe : rb.priority_enable = false
  · have hlc : lane_count rb = 1 := by simp [lane_count, hpe]
    rw [hlc, Nat.one_mul] at hbl
    have h0w : 0 < ws.length := by omega
    have h0r : 0 < rs.length := by omega
    have hwv := List.getElem?_eq_getElem h0w
    have hrv := List.getElem?_eq_getElem h0r
    have hrlt := hri _ (List.getElem?_mem hrv)
    have hpop := Pop_disabled_live rb out ws rs buf ws[0] rs[0] hpe hw hr hb hwv hrv hrlt hf hd
      (by omega) hout
    by_cases hc : (rs[0] + 1) % rb.buffer_fifo_size = ws[0]
    · rw [if_pos hc] at hpop
      exact Or.inl ⟨_, hpop⟩
    · rw [if_neg hc] at hpop
      refine Or.inr ⟨0, rs[0], by omega, hrv, hrlt, ?_⟩
      rw [hpop]
      simp
  · have hpe : rb.priority_enable = true := by simpa using hpe
    have hlc : lane_count rb = rb.priority_level := by simp [lane_count, hpe]
    rcases first_ready ws rs rb.priority_level with hall | ⟨j, hj, hjne, hjmin⟩
    · refine Or.inl ⟨_, Pop_priority_empty rb out hpe (fun i hi => ?_)⟩
      have hiw : i < ws.length := by omega
      refine ⟨ws[i], ?_, ?_⟩
      · simp only [load, hr]; rw [hall i hi]; exact List.getElem?_eq_getElem hiw
      · simp only [load, hw]; exact List.getElem?_eq_getElem hiw
    · have hjr : j < rs.length := by omega
      have hjw : j < ws.length := by omega
      have hrv := List.getElem?_eq_getElem hjr
      have hwv := List.getElem?_eq_getElem hjw
      have hrlt := hri _ (List.getElem?_mem hrv)
      have hne : rs[j] ≠ ws[j] := by
        intro h
        apply hjne
        rw [hrv, hwv, h]
      have hbnd := slot_in_bounds rs[j] j (lane_count rb) _ rb.buffer_data_size hrlt (by omega)
      rw [← hbl] at hbnd
      refine Or.inr ⟨j, rs[j], by omega, hrv, hrlt, ?_⟩
      exact Pop_priority_hit rb out ws rs buf j rs[j] ws[j] hpe hw hr hb hj
        (fun i hi => by
          have hiw : i < ws.length := by omega
          exact ⟨ws[i], by rw [hjmin i hi]; exact List.getElem?_eq_getElem hiw,
            List.getElem?_eq_getElem hiw⟩)
        hrv hwv hne hrlt hf hd hl hbnd hout

theorem step_push_some (rb rb' : s_ringbuffer_t) (priority : Nat) (data : List Nat) (len : Nat)
    (e : e_ringbuffer_error_t)
    (h : RingBuffer_Push (some rb) priority data len = some (e, some rb')) :
    ∃ ev, step rb (.push priority data len) = some (rb', ev) := by
  simp [step, h]

theorem step_pop_some (rb rb' : s_ringbuffer_t) (out out' : List Nat)
    (e : e_ringbuffer_error_t)
    (h : RingBuffer_Pop (some rb) (some out) = some (e, some rb', some out')) :
    ∃ ev, step rb (.pop out) = some (rb', ev) := by
  simp [step, h]

/-- One call on a well-formed buffer returns and leaves a well-formed buffer of the same
geometry. -/
theorem step_well_formed (rb : s_ringbuffer_t) (c : call_t) (hwf : well_formed rb)
    (hc : call_ok rb.buffer_data_size c) :
    ∃ rb' ev, step rb c = some (rb', ev) ∧ well_formed rb' ∧
      rb'.priority_enable = rb.priority_enable ∧ rb'.priority_level = rb.priority_level ∧
      rb'.buffer_data_size = rb.buffer_data_size ∧
      rb'.buffer_fifo_size = rb.buffer_fifo_size := by
  obtain ⟨ws, rs, buf, hw, hr, hb, hwl, hrl, hbl, hwi, hri, hl, hf, hd⟩ :=
    (well_formed_iff rb).mp hwf
  cases c with
  | push priority data len =>
    by_cases hbad : len > rb.buffer_data_size ∨
        (rb.priority_enable = true ∧ priority ≥ rb.priority_level)
    · have hact : Active rb := by simp [Active, hw, hr, hb]
      obtain ⟨ev, hs⟩ := step_push_some rb rb priority data len _
        (Push_parameter rb priority data len hact hbad)
      exact ⟨rb, ev, hs, hwf, rfl, rfl, rfl, rfl⟩
    · simp only [not_or, not_and, not_le, gt_iff_lt, not_lt, ge_iff_le] at hbad
      obtain ⟨e, rb', hpush, hwf', hpe', hlv', -, hd', hf'⟩ :=
        Push_wf_preserved rb priority data len hwf hbad.1 hc hbad.2
      obtain ⟨ev, hs⟩ := step_push_some rb rb' priority data len e hpush
      exact ⟨rb', ev, hs, hwf', hpe', hlv', hd', hf'⟩
  | pop out =>
    rcases Pop_wf_cases rb out rs buf hwf hr hb hc with ⟨e, hpop⟩ | ⟨j, rv, -, -, hrlt, hpop⟩
    · obtain ⟨ev, hs⟩ := step_pop_some rb rb out out e hpop
      exact ⟨rb, ev, hs, hwf, rfl, rfl, rfl, rfl⟩
    · obtain ⟨ev, hs⟩ := step_pop_some rb _ out _ _ hpop
      exact ⟨_, ev, hs,
        well_formed_set_r rb rs j _ hwf hr (Nat.mod_lt _ (by omega)), rfl, rfl, rfl, rfl⟩

/-- A sequence of calls on a well-formed buffer runs to completion and leaves a well-formed
buffer of the same geometry. -/
theorem run_well_formed (calls : List call_t) :
    ∀ (rb : s_ringbuffer_t) (log : List event_t), well_formed rb →
    (∀ c ∈ calls, call_ok rb.buffer_data_size c) →
    ∃ rb' log', run rb log calls = some (rb', log') ∧ well_formed rb' ∧
      rb'.priority_enable = rb.priority_enable ∧ rb'.priority_level = rb.priority_level ∧
      rb'.buffer_data_size = rb.buffer_data_size ∧
      rb'.buffer_fifo_size = rb.buffer_fifo_size := by
  induction calls with
  | nil => intro rb log h _; exact ⟨rb, log, rfl, h, rfl, rfl, rfl, rfl⟩
  | cons c cs ih =>
    intro rb log hwf hcalls
    obtain ⟨rb1, ev, hs, hwf1, hpe1, hlv1, hd1, hf1⟩ :=
      step_well_formed rb c hwf (hcalls c (List.mem_cons_self _ _))
    obtain ⟨rb', log', hrun, hwf', hpe', hlv', hd', hf'⟩ := ih rb1 (log ++ ev) hwf1
      (fun c hcm => by rw [hd1]; exact hcalls c (List.mem_cons_of_mem _ hcm))
    exact ⟨rb', log', by simp [run, hs, hrun], hwf', by rw [hpe', hpe1], by rw [hlv', hlv1],
      by rw [hd', hd1], by rw [hf', hf1]⟩

/-! ### What an accepted push did -/

/-- An accepted push on a well-formed buffer passed the parameter checks, found room in the
addressed lane, and left the handle with one write index advanced and `len` bytes copied
to the slot at the old write index. -/
theorem Push_ok_inv (rb rb' : s_ringbuffer_t) (priority : Nat) (data : List Nat) (len : Nat)
    (hwf : well_formed rb)
    (hpush : RingBuffer_Push (some rb) priority data len = some (ringbuffer_error_ok, some rb')) :
    len ≤ rb.buffer_data_size ∧ len ≤ data.length ∧
    (rb.priority_enable = true → priority < rb.priority_level) ∧
    ∃ ws rs buf wv rv, rb.w = .live ws ∧ rb.r = .live rs ∧ rb.pbuffer = .live buf ∧
      ws[lane_of rb priority]? = some wv ∧ rs[lane_of rb priority]? = some rv ∧
      wv < rb.buffer_fifo_size ∧ (wv + 1) % rb.buffer_fifo_size ≠ rv ∧
      rb' = { rb with
        w := .live (ws.set (lane_of rb priority) ((wv + 1) % rb.buffer_fifo_size)),
        pbuffer := .live
          (buf.take ((wv + lane_of rb priority * rb.buffer_fifo_size) * rb.buffer_data_size)
            ++ data.take len
            ++ buf.drop ((wv + lane_of rb priority * rb.buffer_fifo_size)
                  * rb.buffer_data_size + len)) } := by
  obtain ⟨ws, rs, buf, hw, hr, hb, hwl, hrl, hbl, hwi, hri, hl, hf, hd⟩ :=
    (well_formed_iff rb).mp hwf
  have hact : Active rb := by simp [Active, hw, hr, hb]
  by_cases hbad : len > rb.buffer_data_size ∨
      (rb.priority_enable = true ∧ priority ≥ rb.priority_level)
  · rw [Push_parameter rb priority data len hact hbad] at hpush
    simp at hpush
  · simp only [not_or, not_and, not_le, gt_iff_lt, not_lt, ge_iff_le] at hbad
    obtain ⟨hlen, hlane⟩ := hbad
    have hk := lane_of_lt rb priority hlane
    have hkw : lane_of rb priority < ws.length := by omega
    have hkr : lane_of rb priority < rs.length := by omega
    have hwv := List.getElem?_eq_getElem hkw
    have hrv := List.getElem?_eq_getElem hkr
    have hwlt := hwi _ (List.getElem?_mem hwv)
    have hk256 : lane_of rb priority < 256 := by
      have : lane_count rb < 256 := by
        unfold lane_count; split <;> omega
      omega
    have hdata : len ≤ data.length := by
      by_contra hc
      rw [Push_live rb priority data len ws rs buf _ _ hw hr hb hlen hlane hwv hrv hwlt hf hd
        hk256] at hpush
      split at hpush
      · simp at hpush
      · simp [memcpy_to, hc] at hpush
    obtain ⟨ws', rs', buf', wv, rv, hw', hr', hb', hwv', hrv', hwlt', -, hp⟩ :=
      Push_wf rb priority data len hwf hlen hdata hlane
    rw [hw] at hw'; rw [hr] at hr'; rw [hb] at hb'
    cases hw'; cases hr'; cases hb'
    rw [hp] at hpush
    by_cases hfull : (wv + 1) % rb.buffer_fifo_size = rv
    · rw [if_pos hfull] at hpush
      simp at hpush
    · rw [if_neg hfull] at hpush
      simp only [Option.some.injEq, Prod.mk.injEq, true_and] at hpush
      exact ⟨hlen, hdata, hlane, ws, rs, buf, wv, rv, hw, hr, hb, hwv', hrv', hwlt', hfull,
        hpush.symm⟩

/-! ### The logged `RingBuffer_Register` and the plain one -/

/-- Forgetting the allocator calls of `RingBuffer_Register_logged` gives
`RingBuffer_Register`: the two are the same function, for every input. -/
theorem Register_logged_erase (m : Option s_ringbuffer_t) (pe : Bool)
    (level fifo dsize : Nat) (mw mr mb : Option Nat) :
    (RingBuffer_Register_logged m pe level fifo dsize mw mr mb).map (fun x => (x.1, x.2.1))
      = RingBuffer_Register m pe level fifo dsize mw mr mb := by
  cases m with
  | none => rfl
  | some old =>
    cases pe
    · cases mw <;> cases mr <;> cases mb <;>
        simp [RingBuffer_Register_logged, RingBuffer_Register, ringbuffer_malloc_logged,
          ringbuffer_free_logged, ringbuffer_malloc, ringbuffer_free, memset]
    · by_cases hl : level = 0
      · simp [RingBuffer_Register_logged, RingBuffer_Register, hl]
      · cases mw <;> cases mr <;> cases mb <;>
          simp [RingBuffer_Register_logged, RingBuffer_Register, ringbuffer_malloc_logged,
            ringbuffer_free_logged, ringbuffer_malloc, ringbuffer_free, memset, hl]

/-- The allocator calls of a registration whose third allocation fails: three calls of
`malloc`, then the two earlier blocks are released. -/
theorem Register_logged_rollback_calls :
    RingBuffer_Register_logged (some unregistered) false 0 4 8 (some 0) (some 0) none =
      some (ringbuffer_error_no_memory,
        some ⟨false, 0, .dangling, .dangling, .null, 8, 4⟩,
        [.malloc 1, .malloc 1, .malloc 32, .free, .free]) := by
  decide

/-! ## The claims -/

/-- Claim C1 (capacity).  After a successful `RingBuffer_Register` with `slot_count ≥ 1`, in a
run of consecutive `RingBuffer_Push` calls on one admissible lane with `len ≤ slot_size`
(and no `RingBuffer_Pop` in between) every call returns a code: the first `slot_count - 1`
calls return `ringbuffer_error_ok`, the next call and every later one returns
`ringbuffer_error_no_memory`. -/
theorem C1_capacity (old rb0 : s_ringbuffer_t) (pe : Bool) (level fifo dsize : Nat)
    (mw mr mb : Option Nat) (priority : Nat) (items : List (List Nat × Nat))
    (hreg : RingBuffer_Register (some old) pe level fifo dsize mw mr mb
      = some (ringbuffer_error_ok, some rb0))
    (hlevel : level < 256) (hfifo : 1 ≤ fifo ∧ fifo < 256) (hdsize : dsize < 256)
    (hlane : pe = true → priority < level)
    (hitems : ∀ it ∈ items, it.2 ≤ dsize ∧ it.2 ≤ it.1.length) :
    ∃ m, push_run (some rb0) priority items =
      some (List.replicate (min items.length (fifo - 1)) ringbuffer_error_ok
        ++ List.replicate (items.length - (fifo - 1)) ringbuffer_error_no_memory, m) := by
  have hwf := Register_well_formed old pe level fifo dsize mw mr mb rb0 hreg hlevel hfifo hdsize
  obtain ⟨rfl, hlv⟩ := Register_ok old pe level fifo dsize mw mr mb rb0 hreg
  have hk : (if pe = true then priority else 0) < (if pe = true then level else 1) := by
    cases pe
    · simp
    · simpa using hlane rfl
  have h := push_run_from priority items _ 0 hwf hlane hitems
    (by simp [load, lane_of, hk]) (by simp [load, lane_of, hk])
  simpa using h

/-- Witness for C1: four slots of two bytes, priority disabled, five calls. -/
theorem C1_capacity_witness :
    ∃ m, push_run (some ⟨false, 0, .live [0], .live [0], .live (List.replicate 8 0), 2, 4⟩) 0
        [([1, 2], 2), ([3, 4], 2), ([5], 1), ([6], 1), ([7], 1)] =
      some ([ringbuffer_error_ok, ringbuffer_error_ok, ringbuffer_error_ok,
        ringbuffer_error_no_memory, ringbuffer_error_no_memory], m) :=
  C1_capacity ⟨false, 0, .null, .null, .null, 0, 0⟩ _ false 0 4 2 (some 0) (some 0) (some 0) 0
    [([1, 2], 2), ([3, 4], 2), ([5], 1), ([6], 1), ([7], 1)]
    (by decide) (by decide) (by decide) (by decide) (by decide) (by decide)

/-- Claim C2 (the code at the specification's scenario).  `RingBuffer_Register` with priority
disabled, `slot_count = 4`, `slot_size = 8` succeeds and three pushes of 8-byte items
succeed; of the four calls of `RingBuffer_Pop` that follow, the first two deliver the
first two items and the third already returns `ringbuffer_error_no_data`, leaving the third
item unread. -/
theorem C2_third_pop_reports_no_data :
    (do
      let (e0, m) ← RingBuffer_Register (some unregistered) false 0 4 8 (some 0) (some 0) (some 0)
      let (es, m) ← push_run m 0
        [([1, 2, 3, 4, 5, 6, 7, 8], 8), ([11, 12, 13, 14, 15, 16, 17, 18], 8),
         ([21, 22, 23, 24, 25, 26, 27, 28], 8)]
      let (ps, _) ← pop_run m (some [0, 0, 0, 0, 0, 0, 0, 0]) 4
      some (e0, es, ps)) =
    some (ringbuffer_error_ok,
      [ringbuffer_error_ok, ringbuffer_error_ok, ringbuffer_error_ok],
      [(ringbuffer_error_ok, some [1, 2, 3, 4, 5, 6, 7, 8]),
       (ringbuffer_error_ok, some [11, 12, 13, 14, 15, 16, 17, 18]),
       (ringbuffer_error_no_data, some [11, 12, 13, 14, 15, 16, 17, 18]),
       (ringbuffer_error_no_data, some [11, 12, 13, 14, 15, 16, 17, 18])]) := by
  rfl

/-- Claim C3 (the code on a fresh buffer with priority disabled).  After a successful
`RingBuffer_Register` with `slot_count = 4`, `slot_size = 8`, the push of a 3-byte payload
returns `ringbuffer_error_ok` and the pop that follows returns `ringbuffer_error_no_data`
and leaves the output array untouched: the payload does not come back. -/
theorem C3_round_trip_disabled_reports_no_data :
    (do
      let (e0, m) ← RingBuffer_Register (some unregistered) false 0 4 8 (some 0) (some 0) (some 0)
      let (e1, m) ← RingBuffer_Push m 0 [7, 8, 9] 3
      let (e2, _, out) ← RingBuffer_Pop m (some [5, 5, 5, 5, 5, 5, 5, 5])
      some (e0, e1, e2, out)) =
    some (ringbuffer_error_ok, ringbuffer_error_ok, ringbuffer_error_no_data,
      some [5, 5, 5, 5, 5, 5, 5, 5]) := by
  decide


/-- Claim C4 (strict priority selection).  In priority mode, on a well-formed Active buffer
in which lane `j` is the smallest lane whose read index differs from its write index,
`RingBuffer_Pop` returns `ringbuffer_error_ok`, writes the `slot_size` bytes of slot
`read_index[j]` of lane `j` to the front of the output array, sets `read_index[j]` to
`(read_index[j] + 1) mod slot_count` and changes nothing else: every other read index,
every write index and the backing store are as before. -/
theorem C4_strict_priority_selection (rb : s_ringbuffer_t) (out ws rs buf : List Nat)
    (j rv : Nat)
    (hpe : rb.priority_enable = true) (hwf : well_formed rb)
    (hw : rb.w = .live ws) (hr : rb.r = .live rs) (hb : rb.pbuffer = .live buf)
    (hj : j < rb.priority_level)
    (hrv : rs[j]? = some rv) (hne : ws[j]? ≠ some rv)
    (hmin : ∀ i, i < j → rs[i]? = ws[i]?)
    (hout : rb.buffer_data_size ≤ out.length) :
    RingBuffer_Pop (some rb) (some out) =
      some (ringbuffer_error_ok,
        some { rb with r := .live (rs.set j ((rv + 1) % rb.buffer_fifo_size)) },
        some (slot_at buf rb.buffer_data_size (rv + j * rb.buffer_fifo_size)
          ++ out.drop rb.buffer_data_size)) ∧
    (slot_at buf rb.buffer_data_size (rv + j * rb.buffer_fifo_size)).length
      = rb.buffer_data_size ∧
    ∀ i, i ≠ j → (rs.set j ((rv + 1) % rb.buffer_fifo_size))[i]? = rs[i]? := by
  obtain ⟨ws', rs', buf', hw', hr', hb', hwl, hrl, hbl, hwi, hri, hl, hf, hd⟩ :=
    (well_formed_iff rb).mp hwf
  rw [hw] at hw'; rw [hr] at hr'; rw [hb] at hb'
  cases hw'; cases hr'; cases hb'
  have hlc : lane_count rb = rb.priority_level := by simp [lane_count, hpe]
  have hjw : j < ws.length := by omega
  have hwv := List.getElem?_eq_getElem hjw
  have hrlt := hri _ (List.getElem?_mem hrv)
  have hbuf := slot_in_bounds rv j (lane_count rb) _ rb.buffer_data_size hrlt (by omega)
  refine ⟨?_, ?_, ?_⟩
  · refine Pop_priority_hit rb out ws rs buf j rv ws[j] hpe hw hr hb hj ?_ hrv hwv ?_ hrlt hf hd
      hl (by omega) hout
    · intro i hi
      have hiw : i < ws.length := by omega
      exact ⟨ws[i], by rw [hmin i hi]; exact List.getElem?_eq_getElem hiw,
        List.getElem?_eq_getElem hiw⟩
    · intro h
      exact hne (by rw [hwv, h])
  · simp only [slot_at, List.length_take, List.length_drop]
    omega
  · intro i hi
    exact List.getElem?_set_ne (Ne.symm hi)

/-- Witness for C4, the specification's scenario: three lanes of four 2-byte slots are
registered, one item is pushed to lane 2 and then one to lane 0; the first pop hands out
the item of lane 0 and the second pop the item of lane 2. -/
theorem C4_strict_priority_selection_witness :
    (do
      let (_, m) ← RingBuffer_Register (some unregistered) true 3 4 2 (some 0) (some 0) (some 0)
      let (_, m) ← RingBuffer_Push m 2 [1, 2] 2
      let (_, m) ← RingBuffer_Push m 0 [3, 4] 2
      some m) =
      some (some ⟨true, 3, .live [1, 0, 1], .live [0, 0, 0],
        .live [3, 4, 0, 0, 0, 0, 0, 0, 0, 0, 0, 0, 0, 0, 0, 0, 1, 2, 0, 0, 0, 0, 0, 0], 2, 4⟩) ∧
    RingBuffer_Pop
        (some ⟨true, 3, .live [1, 0, 1], .live [0, 0, 0],
          .live [3, 4, 0, 0, 0, 0, 0, 0, 0, 0, 0, 0, 0, 0, 0, 0, 1, 2, 0, 0, 0, 0, 0, 0], 2, 4⟩)
        (some [9, 9]) =
      some (ringbuffer_error_ok,
        some ⟨true, 3, .live [1, 0, 1], .live [1, 0, 0],
          .live [3, 4, 0, 0, 0, 0, 0, 0, 0, 0, 0, 0, 0, 0, 0, 0, 1, 2, 0, 0, 0, 0, 0, 0], 2, 4⟩,
        some [3, 4]) ∧
    RingBuffer_Pop
        (some ⟨true, 3, .live [1, 0, 1], .live [1, 0, 0],
          .live [3, 4, 0, 0, 0, 0, 0, 0, 0, 0, 0, 0, 0, 0, 0, 0, 1, 2, 0, 0, 0, 0, 0, 0], 2, 4⟩)
        (some [3, 4]) =
      some (ringbuffer_error_ok,
        some ⟨true, 3, .live [1, 0, 1], .live [1, 0, 1],
          .live [3, 4, 0, 0, 0, 0, 0, 0, 0, 0, 0, 0, 0, 0, 0, 0, 1, 2, 0, 0, 0, 0, 0, 0], 2, 4⟩,
        some [1, 2]) :=
  ⟨by rfl,
   (C4_strict_priority_selection
    ⟨true, 3, .live [1, 0, 1], .live [0, 0, 0],
      .live [3, 4, 0, 0, 0, 0, 0, 0, 0, 0, 0, 0, 0, 0, 0, 0, 1, 2, 0, 0, 0, 0, 0, 0], 2, 4⟩
    [9, 9] [1, 0, 1] [0, 0, 0]
    [3, 4, 0, 0, 0, 0, 0, 0, 0, 0, 0, 0, 0, 0, 0, 0, 1, 2, 0, 0, 0, 0, 0, 0] 0 0
    rfl (by decide) rfl rfl rfl (by decide) (by decide) (by decide)
    (fun i hi => absurd hi (Nat.not_lt_zero i)) (by decide)).1,
   (C4_strict_priority_selection
    ⟨true, 3, .live [1, 0, 1], .live [1, 0, 0],
      .live [3, 4, 0, 0, 0, 0, 0, 0, 0, 0, 0, 0, 0, 0, 0, 0, 1, 2, 0, 0, 0, 0, 0, 0], 2, 4⟩
    [3, 4] [1, 0, 1] [1, 0, 0]
    [3, 4, 0, 0, 0, 0, 0, 0, 0, 0, 0, 0, 0, 0, 0, 0, 1, 2, 0, 0, 0, 0, 0, 0] 2 0
    rfl (by decide) rfl rfl rfl (by decide) (by decide) (by decide)
    (by decide) (by decide)).1⟩

/-- Claim C5 (per-lane FIFO in priority mode).  On a freshly registered priority-mode buffer
with `slot_count ≥ 2`, every sequence of `RingBuffer_Push` and `RingBuffer_Pop` calls runs
to completion, and for every lane `k`: the items handed out of lane `k` are, in order and
one for one, the first of the items stored in lane `k` (each item handed out is a whole
slot, which starts with the bytes that were stored), and the items stored but not yet
handed out are exactly the slots from `read_index[k]` up to but excluding `write_index[k]`,
in cyclic order. -/
theorem C5_per_lane_fifo (old rb0 : s_ringbuffer_t) (level fifo dsize : Nat)
    (mw mr mb : Option Nat) (calls : List call_t)
    (hreg : RingBuffer_Register (some old) true level fifo dsize mw mr mb
      = some (ringbuffer_error_ok, some rb0))
    (hlevel : level < 256) (hfifo : 2 ≤ fifo ∧ fifo < 256) (hdsize : dsize < 256)
    (hcalls : ∀ c ∈ calls, call_ok dsize c) :
    ∃ rb log, run rb0 [] calls = some (rb, log) ∧
      ∀ k, k < level →
        List.Forall₂ (fun p d => p <+: d)
          ((pushed_to k log).take (delivered_from k log).length) (delivered_from k log) ∧
        List.Forall₂ (fun p s => p <+: s)
          ((pushed_to k log).drop (delivered_from k log).length) (pending_slots rb k) := by
  have hwf := Register_well_formed old true level fifo dsize mw mr mb rb0 hreg hlevel
    ⟨by omega, hfifo.2⟩ hdsize
  obtain ⟨rfl, -⟩ := Register_ok old true level fifo dsize mw mr mb rb0 hreg
  have hinit : fifo_inv
      { priority_enable := true, priority_level := level,
        w := .live (List.replicate (if true = true then level else 1) 0),
        r := .live (List.replicate (if true = true then level else 1) 0),
        pbuffer := .live (List.replicate ((if true = true then level else 1) * fifo * dsize) 0),
        buffer_data_size := dsize, buffer_fifo_size := fifo } [] := by
    refine ⟨hwf, rfl, hfifo.1, _, _, _, rfl, rfl, rfl, ?_⟩
    intro k hk
    simp only at hk
    refine ⟨0, 0, ?_, ?_, Nat.le_refl _, ?_, ?_, ?_, ?_⟩
    · simp [List.getElem?_replicate, hk]
    · simp [List.getElem?_replicate, hk]
    · simp [pushed_to, delivered_from]; omega
    · simp [pushed_to, delivered_from]
    · simp [pushed_to, delivered_from]
    · simp [pushed_to, delivered_from, slots_from]
  obtain ⟨rb, log, hrun, hinv, hlv⟩ := fifo_inv_run calls _ [] hinit hcalls
  refine ⟨rb, log, hrun, ?_⟩
  intro k hk
  obtain ⟨hwf', hpe, hfifo', ws, rs, buf, hw, hr, hb, hlanes⟩ := hinv
  simp only at hlv
  obtain ⟨wv, rv, hwv, hrv, hle, hn, hidx, hD, hQ⟩ := hlanes k (by omega)
  refine ⟨hD, ?_⟩
  obtain ⟨ws1, rs1, buf1, hw1, hr1, hb1, hwl, hrl, hbl, hwi, hri, hl, hf, hd⟩ :=
    (well_formed_iff rb).mp hwf'
  rw [hr] at hr1
  cases hr1
  have hrlt := hri _ (List.getElem?_mem hrv)
  have hpend : pending_slots rb k = slots_from buf rb.buffer_data_size rb.buffer_fifo_size k
      ((pushed_to k log).length - (delivered_from k log).length) rv := by
    simp only [pending_slots, hw, hr, hb, List.getD_eq_getElem?_getD, hwv, hrv,
      Option.getD_some]
    rw [hidx, pending_count rv _ _ hrlt hn]
  rw [hpend]
  exact hQ

/-- Witness for C5: two lanes of three 2-byte slots; items go to lane 1, lane 0 and lane 1
again, with three pops in between and after. -/
theorem C5_per_lane_fifo_witness :
    ∃ rb log,
      run ⟨true, 2, .live [0, 0], .live [0, 0], .live (List.replicate 12 0), 2, 3⟩ []
        [.push 1 [1, 2] 2, .push 0 [3] 1, .pop [0, 0], .push 1 [5, 6] 2, .pop [0, 0],
         .pop [0, 0]] = some (rb, log) ∧
      ∀ k, k < 2 →
        List.Forall₂ (fun p d => p <+: d)
          ((pushed_to k log).take (delivered_from k log).length) (delivered_from k log) ∧
        List.Forall₂ (fun p s => p <+: s)
          ((pushed_to k log).drop (delivered_from k log).length) (pending_slots rb k) :=
  C5_per_lane_fifo unregistered _ 2 3 2 (some 0) (some 0) (some 0)
    [.push 1 [1, 2] 2, .push 0 [3] 1, .pop [0, 0], .push 1 [5, 6] 2, .pop [0, 0], .pop [0, 0]]
    (by decide) (by decide) (by decide) (by decide) (by decide)

/-- Claim C6 (result code of `RingBuffer_Push`).  On a non-null handle whose buffer is either
not Active or satisfies the representation invariant, `RingBuffer_Push` returns a code, and
that code is `ringbuffer_error_parameter` exactly when the buffer is not Active, or
`len > slot_size`, or priority is enabled and `lane ≥ priority_level`; otherwise it is
`ringbuffer_error_no_memory` exactly when `(write_index + 1) mod slot_count = read_index`
for the addressed lane; otherwise it is `ringbuffer_error_ok`. -/
theorem C6_push_result_code (rb : s_ringbuffer_t) (priority : Nat) (data : List Nat) (len : Nat)
    (hwf : Active rb → well_formed rb) (hdata : len ≤ data.length) :
    ∃ rb', RingBuffer_Push (some rb) priority data len =
      some (
        (if ¬ Active rb ∨ len > rb.buffer_data_size ∨
            (rb.priority_enable = true ∧ priority ≥ rb.priority_level) then
          ringbuffer_error_parameter
        else if (load rb.w (lane_of rb priority)).map (fun w => (w + 1) % rb.buffer_fifo_size)
            = load rb.r (lane_of rb priority) then
          ringbuffer_error_no_memory
        else ringbuffer_error_ok),
        some rb') := by
  by_cases hact : Active rb
  · by_cases hlen : len > rb.buffer_data_size
    · refine ⟨rb, ?_⟩
      obtain ⟨h1, h2, h3⟩ := hact
      simp [RingBuffer_Push, h1, h2, h3, hlen]
    · by_cases hlane : rb.priority_enable = true ∧ priority ≥ rb.priority_level
      · refine ⟨rb, ?_⟩
        obtain ⟨h1, h2, h3⟩ := hact
        simp [RingBuffer_Push, h1, h2, h3, hlen, hlane]
      · have hlane' : rb.priority_enable = true → priority < rb.priority_level := by
          intro h
          by_contra hc
          exact hlane ⟨h, by omega⟩
        obtain ⟨ws, rs, buf, wv, rv, hw, hr, hb, hwv, hrv, -, -, hpush⟩ :=
          Push_wf rb priority data len (hwf hact) (by omega) hdata hlane'
        rw [hpush]
        have hcond : ¬ (¬ Active rb ∨ len > rb.buffer_data_size ∨
            (rb.priority_enable = true ∧ priority ≥ rb.priority_level)) := by
          simp only [not_or, not_not]
          exact ⟨hact, hlen, hlane⟩
        rw [if_neg hcond]
        simp only [load, hw, hr, hwv, hrv, Option.map_some', Option.some.injEq]
        split
        · exact ⟨_, rfl⟩
        · exact ⟨_, rfl⟩
  · refine ⟨rb, ?_⟩
    have hnull : rb.w = .null ∨ rb.r = .null ∨ rb.pbuffer = .null := by
      unfold Active at hact
      by_contra hc
      simp only [not_or] at hc
      exact hact hc
    simp [RingBuffer_Push, hnull, hact]

/-- Witness for C6: a two-slot lane that already holds one item is full. -/
theorem C6_push_result_code_witness :
    ∃ rb', RingBuffer_Push (some ⟨false, 0, .live [1], .live [0], .live [7, 0], 1, 2⟩) 0 [9] 1 =
      some (ringbuffer_error_no_memory, some rb') :=
  C6_push_result_code ⟨false, 0, .live [1], .live [0], .live [7, 0], 1, 2⟩ 0 [9] 1
    (fun _ => by decide) (by decide)

/-- Claim C7 (`RingBuffer_Push` is atomic on failure).  Whatever the handle and the arguments,
when `RingBuffer_Push` returns a code other than `ringbuffer_error_ok` the handle structure
is exactly as before: no write index, no read index and no byte of the backing store has
changed. -/
theorem C7_push_atomic_on_failure (m m' : Option s_ringbuffer_t) (priority : Nat)
    (data : List Nat) (len : Nat) (e : e_ringbuffer_error_t)
    (h : RingBuffer_Push m priority data len = some (e, m'))
    (hne : e ≠ ringbuffer_error_ok) : m' = m := by
  unfold RingBuffer_Push at h
  split at h
  · simp at h; exact h.2.symm
  · next rb =>
    split at h
    · simp at h; exact h.2.symm
    · split at h
      · simp at h; exact h.2.symm
      · split at h
        · cases h1 : load rb.w 0 <;> simp [h1] at h
          cases h2 : load rb.r 0 <;> simp [h2] at h
          split_ifs at h
          all_goals first
            | (simp only [Option.some.injEq, Prod.mk.injEq] at h; exact h.2.symm)
            | (simp only [Option.bind_eq_some] at h
               obtain ⟨_, -, _, -, h⟩ := h
               simp only [Option.some.injEq, Prod.mk.injEq] at h
               exact absurd h.1.symm hne)
        · split at h
          · simp at h; exact h.2.symm
          · cases h1 : load rb.w priority <;> simp [h1] at h
            cases h2 : load rb.r priority <;> simp [h2] at h
            split_ifs at h
            all_goals first
              | (simp only [Option.some.injEq, Prod.mk.injEq] at h; exact h.2.symm)
              | (simp only [Option.bind_eq_some] at h
                 obtain ⟨_, -, _, -, h⟩ := h
                 simp only [Option.some.injEq, Prod.mk.injEq] at h
                 exact absurd h.1.symm hne)

/-- Witness for C7: a push on a full two-slot lane is refused and changes nothing. -/
theorem C7_push_atomic_on_failure_witness :
    RingBuffer_Push (some ⟨false, 0, .live [1], .live [0], .live [7, 0], 1, 2⟩) 0 [9] 1
      = some (ringbuffer_error_no_memory,
          some ⟨false, 0, .live [1], .live [0], .live [7, 0], 1, 2⟩) ∧
    (some ⟨false, 0, .live [1], .live [0], .live [7, 0], 1, 2⟩ : Option s_ringbuffer_t)
      = some ⟨false, 0, .live [1], .live [0], .live [7, 0], 1, 2⟩ :=
  ⟨by decide,
   C7_push_atomic_on_failure (some ⟨false, 0, .live [1], .live [0], .live [7, 0], 1, 2⟩)
    (some ⟨false, 0, .live [1], .live [0], .live [7, 0], 1, 2⟩) 0 [9] 1
    ringbuffer_error_no_memory (by decide) (by decide)⟩

/-- Claim C8 (the code on a just-registered buffer with priority disabled).  After a
successful `RingBuffer_Register` with `slot_count = 4`, `slot_size = 8` and no push, a pop
returns `ringbuffer_error_ok`, hands out the eight zero bytes of slot `0` and moves the read
index to `1`. -/
theorem C8_pop_on_fresh_buffer_returns_ok :
    (do
      let (e0, m) ← RingBuffer_Register (some unregistered) false 0 4 8 (some 0) (some 0) (some 0)
      let (e1, m, out) ← RingBuffer_Pop m (some [5, 5, 5, 5, 5, 5, 5, 5])
      some (e0, e1, m.map (fun rb => (rb.w, rb.r)), out)) =
    some (ringbuffer_error_ok, ringbuffer_error_ok, some (.live [0], .live [1]),
      some [0, 0, 0, 0, 0, 0, 0, 0]) := by
  rfl


/-- Claim C9 (empty pop in priority mode).  In priority mode, when every lane below
`priority_level` has equal read and write index, `RingBuffer_Pop` with a non-null output
array returns `ringbuffer_error_ok` and leaves the output array, all indices and the backing
store as they were. -/
theorem C9_empty_pop_priority (rb : s_ringbuffer_t) (out : List Nat)
    (hpe : rb.priority_enable = true)
    (hempty : ∀ k, k < rb.priority_level →
      ∃ v, load rb.r k = some v ∧ load rb.w k = some v) :
    RingBuffer_Pop (some rb) (some out) = some (ringbuffer_error_ok, some rb, some out) :=
  Pop_priority_empty rb out hpe hempty

/-- Witness for C9: a freshly registered priority buffer with three lanes. -/
theorem C9_empty_pop_priority_witness :
    RingBuffer_Pop
        (some ⟨true, 3, .live [0, 0, 0], .live [0, 0, 0], .live (List.replicate 24 0), 2, 4⟩)
        (some [9, 9]) =
      some (ringbuffer_error_ok,
        some ⟨true, 3, .live [0, 0, 0], .live [0, 0, 0], .live (List.replicate 24 0), 2, 4⟩,
        some [9, 9]) :=
  C9_empty_pop_priority
    ⟨true, 3, .live [0, 0, 0], .live [0, 0, 0], .live (List.replicate 24 0), 2, 4⟩ [9, 9] rfl
    (by decide)

/-- Claim C10 (wraparound).  On a freshly registered priority-mode buffer with
`slot_count ≥ 2`, any number `m` of pairs (push payload `P_i` to lane `k`; pop), all other
lanes being left empty, runs to completion with every push and every pop returning
`ringbuffer_error_ok`; the `i`-th pop leaves `P_i` in the first `length(P_i)` bytes of the
output array; and afterwards `write_index[k] = read_index[k] = m mod slot_count`. -/
theorem C10_wraparound (old rb0 : s_ringbuffer_t) (level fifo dsize : Nat)
    (mw mr mb : Option Nat) (priority : Nat) (out : List Nat)
    (items : List (List Nat × Nat))
    (hreg : RingBuffer_Register (some old) true level fifo dsize mw mr mb
      = some (ringbuffer_error_ok, some rb0))
    (hlevel : level < 256) (hfifo : 2 ≤ fifo ∧ fifo < 256) (hdsize : dsize < 256)
    (hlane : priority < level) (hout : dsize ≤ out.length)
    (hitems : ∀ it ∈ items, it.2 ≤ dsize ∧ it.2 ≤ it.1.length) :
    ∃ log rb out',
      push_pop_run (some rb0) priority (some out) items = some (log, some rb, some out') ∧
      List.Forall₂ (fun it entry => entry.1 = ringbuffer_error_ok ∧
          entry.2.1 = ringbuffer_error_ok ∧
          ∃ o, entry.2.2 = some o ∧ o.take it.2 = it.1.take it.2) items log ∧
      load rb.w priority = some (items.length % fifo) ∧
      load rb.r priority = some (items.length % fifo) := by
  have hwf := Register_well_formed old true level fifo dsize mw mr mb rb0 hreg hlevel
    ⟨by omega, hfifo.2⟩ hdsize
  obtain ⟨rfl, -⟩ := Register_ok old true level fifo dsize mw mr mb rb0 hreg
  have h := push_pop_run_from priority items _ out 0 hwf rfl hfifo.1 hlane rfl
    (by simp [load, hlane]) hout hitems
  simpa using h

/-- Witness for C10: two slots per lane, three pairs on lane 1 of two lanes; the indices
end at `3 mod 2 = 1`. -/
theorem C10_wraparound_witness :
    ∃ log rb out',
      push_pop_run (some ⟨true, 2, .live [0, 0], .live [0, 0], .live (List.replicate 8 0), 2, 2⟩)
        1 (some [0, 0]) [([1, 2], 2), ([3], 1), ([5, 6], 2)] = some (log, some rb, some out') ∧
      List.Forall₂ (fun it entry => entry.1 = ringbuffer_error_ok ∧
          entry.2.1 = ringbuffer_error_ok ∧
          ∃ o, entry.2.2 = some o ∧ o.take it.2 = it.1.take it.2)
        [([1, 2], 2), ([3], 1), ([5, 6], 2)] log ∧
      load rb.w 1 = some 1 ∧ load rb.r 1 = some 1 :=
  C10_wraparound unregistered _ 2 2 2 (some 0) (some 0) (some 0) 1 [0, 0]
    [([1, 2], 2), ([3], 1), ([5, 6], 2)]
    (by decide) (by decide) (by decide) (by decide) (by decide) (by decide) (by decide)

/-- Claim C11 (postcondition of a successful `RingBuffer_Register`).  When the three
allocations succeed, and `priority_level ≥ 1` if priority is enabled, `RingBuffer_Register`
returns `ringbuffer_error_ok` and leaves a handle with the mode, level, `slot_count` and
`slot_size` as given, `lane_count` write indices and `lane_count` read indices all `0`, and
a backing store of `lane_count * slot_count * slot_size` bytes all `0`, where `lane_count`
is `priority_level` when priority is enabled and `1` otherwise. -/
theorem C11_register_success (old : s_ringbuffer_t) (pe : Bool) (level fifo dsize : Nat)
    (jw jr jb : Nat) (hlevel : pe = true → 1 ≤ level) :
    RingBuffer_Register (some old) pe level fifo dsize (some jw) (some jr) (some jb) =
      some (ringbuffer_error_ok, some
        { priority_enable := pe, priority_level := level,
          w := .live (List.replicate (if pe then level else 1) 0),
          r := .live (List.replicate (if pe then level else 1) 0),
          pbuffer := .live (List.replicate ((if pe then level else 1) * fifo * dsize) 0),
          buffer_data_size := dsize, buffer_fifo_size := fifo }) := by
  cases pe
  · simp [RingBuffer_Register, ringbuffer_malloc, memset]
  · have hl : level ≠ 0 := by have := hlevel rfl; omega
    simp [RingBuffer_Register, ringbuffer_malloc, memset, hl]

/-- Witness for C11: three lanes of four 2-byte slots, the allocator handing out blocks
filled with the byte `7`. -/
theorem C11_register_success_witness :
    RingBuffer_Register (some unregistered) true 3 4 2 (some 7) (some 7) (some 7) =
      some (ringbuffer_error_ok, some
        ⟨true, 3, .live [0, 0, 0], .live [0, 0, 0], .live (List.replicate 24 0), 2, 4⟩) :=
  C11_register_success unregistered true 3 4 2 7 7 7 (by decide)

/-- Claim C12 (the code when the second or the third allocation fails).  With priority
disabled, `slot_count = 4`, `slot_size = 8`: when the allocation of the read index fails,
`RingBuffer_Register` returns `ringbuffer_error_no_memory` and leaves `w` non-null, naming
the block it has just released; when the allocation of the backing store fails, it leaves
both `w` and `r` so.  A `RingBuffer_UnRegister` on either handle releases a block a second
time. -/
theorem C12_rollback_leaves_dangling_pointers :
    RingBuffer_Register (some unregistered) false 0 4 8 (some 0) none (some 0) =
      some (ringbuffer_error_no_memory, some ⟨false, 0, .dangling, .null, .null, 8, 4⟩) ∧
    RingBuffer_Register (some unregistered) false 0 4 8 (some 0) (some 0) none =
      some (ringbuffer_error_no_memory, some ⟨false, 0, .dangling, .dangling, .null, 8, 4⟩) ∧
    RingBuffer_UnRegister (some ⟨false, 0, .dangling, .null, .null, 8, 4⟩) = none ∧
    RingBuffer_UnRegister (some ⟨false, 0, .dangling, .dangling, .null, 8, 4⟩) = none := by
  decide

/-- Claim C13 (`RingBuffer_Register` rejects a zero priority level).  With priority enabled
and `priority_level = 0`, whatever `slot_count`, `slot_size` and the allocator would do,
`RingBuffer_Register` returns `ringbuffer_error_parameter` with all three pointers null and
has made no call of `malloc` or `free`: the list of allocator calls it returns is empty.
With priority disabled it returns a code for every `priority_level`, that code is never
`ringbuffer_error_parameter`, and the first thing it has done is a `malloc` of one cell.
The calls are those of `RingBuffer_Register_logged`, which is `RingBuffer_Register` with
its allocator calls written down: forgetting them gives `RingBuffer_Register` on every
input. -/
theorem C13_register_zero_level (old : s_ringbuffer_t) (fifo dsize : Nat)
    (mw mr mb : Option Nat) :
    (RingBuffer_Register (some old) true 0 fifo dsize mw mr mb =
      some (ringbuffer_error_parameter, some
        { priority_enable := true, priority_level := 0, w := .null, r := .null,
          pbuffer := .null, buffer_data_size := dsize, buffer_fifo_size := fifo }) ∧
    ∀ level, ∃ e m, RingBuffer_Register (some old) false level fifo dsize mw mr mb = some (e, m) ∧
      e ≠ ringbuffer_error_parameter) ∧
    RingBuffer_Register_logged (some old) true 0 fifo dsize mw mr mb =
      some (ringbuffer_error_parameter, some
        { priority_enable := true, priority_level := 0, w := .null, r := .null,
          pbuffer := .null, buffer_data_size := dsize, buffer_fifo_size := fifo }, []) ∧
    (∀ level, ∃ e m calls,
      RingBuffer_Register_logged (some old) false level fifo dsize mw mr mb
        = some (e, m, calls) ∧
      e ≠ ringbuffer_error_parameter ∧ calls.head? = some (.malloc 1)) ∧
    (∀ level, level ≠ 0 → ∃ e m calls,
      RingBuffer_Register_logged (some old) true level fifo dsize mw mr mb
        = some (e, m, calls) ∧
      e ≠ ringbuffer_error_parameter ∧ calls.head? = some (.malloc level)) ∧
    ∀ (m : Option s_ringbuffer_t) (pe : Bool) (level : Nat),
      (RingBuffer_Register_logged m pe level fifo dsize mw mr mb).map (fun x => (x.1, x.2.1))
        = RingBuffer_Register m pe level fifo dsize mw mr mb := by
  refine ⟨⟨by simp [RingBuffer_Register], ?_⟩, by simp [RingBuffer_Register_logged], ?_, ?_,
    fun m pe level => Register_logged_erase m pe level fifo dsize mw mr mb⟩
  · intro level
    cases mw <;> cases mr <;> cases mb <;>
      simp [RingBuffer_Register, ringbuffer_malloc, ringbuffer_free, memset]
  · intro level
    cases mw <;> cases mr <;> cases mb <;>
      simp [RingBuffer_Register_logged, ringbuffer_malloc_logged, ringbuffer_free_logged,
        ringbuffer_malloc, memset] <;>
      exact ⟨_, _, _, ⟨rfl, rfl, rfl⟩, by decide, rfl⟩
  · intro level hl
    cases mw <;> cases mr <;> cases mb <;>
      simp [RingBuffer_Register_logged, ringbuffer_malloc_logged, ringbuffer_free_logged,
        ringbuffer_malloc, memset, hl] <;>
      exact ⟨_, _, _, ⟨rfl, rfl, rfl⟩, by decide, rfl⟩

/-- Claim C14 (`RingBuffer_UnRegister` is idempotent).  On a non-null handle each of whose
three pointers is null or names a live block (an Active buffer, a buffer never registered,
a buffer already unregistered), `RingBuffer_UnRegister` returns `ringbuffer_error_ok` and
leaves every field zero; a second call on the result again returns `ringbuffer_error_ok`
and leaves the same all-zero structure. -/
theorem C14_unregister_idempotent (rb : s_ringbuffer_t)
    (hw : rb.w ≠ .dangling) (hr : rb.r ≠ .dangling) (hb : rb.pbuffer ≠ .dangling) :
    RingBuffer_UnRegister (some rb) =
      some (ringbuffer_error_ok, some
        { priority_enable := false, priority_level := 0, w := .null, r := .null,
          pbuffer := .null, buffer_data_size := 0, buffer_fifo_size := 0 }) ∧
    RingBuffer_UnRegister (some
        { priority_enable := false, priority_level := 0, w := .null, r := .null,
          pbuffer := .null, buffer_data_size := 0, buffer_fifo_size := 0 }) =
      some (ringbuffer_error_ok, some
        { priority_enable := false, priority_level := 0, w := .null, r := .null,
          pbuffer := .null, buffer_data_size := 0, buffer_fifo_size := 0 }) := by
  refine ⟨?_, by rfl⟩
  cases hw' : rb.w <;> cases hr' : rb.r <;> cases hb' : rb.pbuffer <;>
    simp_all [RingBuffer_UnRegister, ringbuffer_free]

/-- Witness for C14: an Active buffer with one lane of two 1-byte slots. -/
theorem C14_unregister_idempotent_witness :
    RingBuffer_UnRegister (some ⟨false, 0, .live [1], .live [0], .live [7, 0], 1, 2⟩) =
      some (ringbuffer_error_ok, some ⟨false, 0, .null, .null, .null, 0, 0⟩) ∧
    RingBuffer_UnRegister (some ⟨false, 0, .null, .null, .null, 0, 0⟩) =
      some (ringbuffer_error_ok, some ⟨false, 0, .null, .null, .null, 0, 0⟩) :=
  C14_unregister_idempotent ⟨false, 0, .live [1], .live [0], .live [7, 0], 1, 2⟩
    (by decide) (by decide) (by decide)

/-- Claim C15 (frame of a successful `RingBuffer_Push`).  When `RingBuffer_Push` returns
`ringbuffer_error_ok` on a well-formed buffer, the handle differs from the old one only in
the write index of the addressed lane, which becomes `(old + 1) mod slot_count`, and in the
backing store, where the `len` bytes starting at the slot of the old write index now equal
`data[0..len)` and every other byte is as before: the rest of that slot, every other slot,
every read index and every other write index are unchanged. -/
theorem C15_push_frame (rb rb' : s_ringbuffer_t) (priority : Nat) (data : List Nat) (len : Nat)
    (ws buf : List Nat) (wv : Nat)
    (hwf : well_formed rb) (hw : rb.w = .live ws) (hb : rb.pbuffer = .live buf)
    (hwv : ws[lane_of rb priority]? = some wv)
    (hpush : RingBuffer_Push (some rb) priority data len = some (ringbuffer_error_ok, some rb')) :
    ∃ buf', rb' = { rb with
        w := .live (ws.set (lane_of rb priority) ((wv + 1) % rb.buffer_fifo_size)),
        pbuffer := .live buf' } ∧
      buf'.length = buf.length ∧
      (∀ i, i < len →
        buf'[(wv + lane_of rb priority * rb.buffer_fifo_size) * rb.buffer_data_size + i]?
          = data[i]? ∧ i < data.length) ∧
      (∀ j, j < (wv + lane_of rb priority * rb.buffer_fifo_size) * rb.buffer_data_size ∨
          (wv + lane_of rb priority * rb.buffer_fifo_size) * rb.buffer_data_size + len ≤ j →
        buf'[j]? = buf[j]?) ∧
      (∀ i, i ≠ lane_of rb priority →
        (ws.set (lane_of rb priority) ((wv + 1) % rb.buffer_fifo_size))[i]? = ws[i]?) := by
  obtain ⟨hlen, hdata, hlane, ws', rs, buf0, wv', rv, hw', hr, hb', hwv', hrv, hwlt, hroom,
    hrb'⟩ := Push_ok_inv rb rb' priority data len hwf hpush
  rw [hw] at hw'; rw [hb] at hb'
  cases hw'; cases hb'
  rw [hwv] at hwv'
  cases hwv'
  obtain ⟨ws1, rs1, buf1, hw1, hr1, hb1, hwl, hrl, hbl, hwi, hri, hl, hf, hd⟩ :=
    (well_formed_iff rb).mp hwf
  rw [hb] at hb1
  cases hb1
  have hbnd := slot_in_bounds wv (lane_of rb priority) (lane_count rb) _ rb.buffer_data_size
    hwlt (lane_of_lt rb priority hlane)
  rw [← hbl] at hbnd
  have hoff : (wv + lane_of rb priority * rb.buffer_fifo_size) * rb.buffer_data_size + len
      ≤ buf.length := by omega
  refine ⟨_, hrb', ?_, ?_, ?_, ?_⟩
  · simp only [List.length_append, List.length_take, List.length_drop]
    omega
  · intro i hi
    rw [written_getElem? buf data _ len _ hdata hoff, if_neg (by omega), if_pos (by omega)]
    exact ⟨by congr 1; omega, by omega⟩
  · intro j hj
    rw [written_getElem? buf data _ len _ hdata hoff]
    rcases hj with h | h
    · rw [if_pos h]
    · rw [if_neg (by omega), if_neg (by omega)]
  · intro i hi
    exact List.getElem?_set_ne (Ne.symm hi)

/-- Witness for C15: a 1-byte push to lane 1 of two lanes of two 2-byte slots. -/
theorem C15_push_frame_witness :
    ∃ buf', (⟨true, 2, .live [0, 1], .live [0, 0], .live [0, 0, 0, 0, 5, 0, 0, 0], 2, 2⟩ :
        s_ringbuffer_t) =
        ⟨true, 2, .live ([0, 0].set 1 ((0 + 1) % 2)), .live [0, 0], .live buf', 2, 2⟩ ∧
      buf'.length = 8 ∧
      (∀ i, i < 1 → buf'[(0 + 1 * 2) * 2 + i]? = [5][i]? ∧ i < 1) ∧
      (∀ j, j < (0 + 1 * 2) * 2 ∨ (0 + 1 * 2) * 2 + 1 ≤ j →
        buf'[j]? = [0, 0, 0, 0, 0, 0, 0, 0][j]?) ∧
      (∀ i, i ≠ 1 → ([0, 0].set 1 ((0 + 1) % 2))[i]? = [0, 0][i]?) :=
  C15_push_frame ⟨true, 2, .live [0, 0], .live [0, 0], .live [0, 0, 0, 0, 0, 0, 0, 0], 2, 2⟩
    ⟨true, 2, .live [0, 1], .live [0, 0], .live [0, 0, 0, 0, 5, 0, 0, 0], 2, 2⟩ 1 [5] 1
    [0, 0] [0, 0, 0, 0, 0, 0, 0, 0] 0 (by decide) rfl rfl rfl (by decide)

/-- Claim C16 (the emptiness test of `RingBuffer_Pop` with priority disabled).  On an Active
buffer with priority disabled and `read_index < slot_count`, `RingBuffer_Pop` returns
`ringbuffer_error_no_data` and changes nothing exactly when
`(read_index + 1) mod slot_count = write_index`; otherwise it returns
`ringbuffer_error_ok`, writes the `slot_size` bytes of slot `read_index` to the front of the
output array and sets `read_index` to `(read_index + 1) mod slot_count`.  Consequently the
state reached from a fresh buffer by one accepted push, which holds one unread item, is a
state in which the pop reports `ringbuffer_error_no_data`. -/
theorem C16_disabled_pop_next_index_test (rb : s_ringbuffer_t) (out ws rs buf : List Nat)
    (wv rv : Nat)
    (hpe : rb.priority_enable = false)
    (hw : rb.w = .live ws) (hr : rb.r = .live rs) (hb : rb.pbuffer = .live buf)
    (hwv : ws[0]? = some wv) (hrv : rs[0]? = some rv)
    (hrlt : rv < rb.buffer_fifo_size) (hf : rb.buffer_fifo_size < 256)
    (hd : rb.buffer_data_size < 256)
    (hbuf : rb.buffer_fifo_size * rb.buffer_data_size ≤ buf.length)
    (hout : rb.buffer_data_size ≤ out.length) :
    RingBuffer_Pop (some rb) (some out) =
      (if (rv + 1) % rb.buffer_fifo_size = wv then
        some (ringbuffer_error_no_data, some rb, some out)
      else
        some (ringbuffer_error_ok,
          some { rb with r := .live (rs.set 0 ((rv + 1) % rb.buffer_fifo_size)) },
          some (slot_at buf rb.buffer_data_size rv ++ out.drop rb.buffer_data_size))) ∧
    (slot_at buf rb.buffer_data_size rv).length = rb.buffer_data_size ∧
    (do
      let (e0, m) ← RingBuffer_Register (some unregistered) false 0 4 8 (some 0) (some 0) (some 0)
      let (e1, m) ← RingBuffer_Push m 0 [1, 2, 3, 4, 5, 6, 7, 8] 8
      let (e2, m', _) ← RingBuffer_Pop m (some [0, 0, 0, 0, 0, 0, 0, 0])
      some (e0, e1, e2, decide (m' = m))) =
      some (ringbuffer_error_ok, ringbuffer_error_ok, ringbuffer_error_no_data, true) := by
  refine ⟨Pop_disabled_live rb out ws rs buf wv rv hpe hw hr hb hwv hrv hrlt hf hd hbuf hout,
    ?_, ?_⟩
  · have hbnd := slot_in_bounds rv 0 1 rb.buffer_fifo_size rb.buffer_data_size hrlt (by omega)
    simp only [Nat.zero_mul, Nat.add_zero, Nat.one_mul] at hbnd
    simp only [slot_at, List.length_take, List.length_drop]
    omega
  · rfl

/-- Witness for C16: four 2-byte slots, read index `1`, write index `3`; the pop hands out
slot `1`. -/
theorem C16_disabled_pop_next_index_test_witness :
    RingBuffer_Pop
        (some ⟨false, 0, .live [3], .live [1], .live [1, 2, 3, 4, 5, 6, 0, 0], 2, 4⟩)
        (some [9, 9]) =
      some (ringbuffer_error_ok,
        some ⟨false, 0, .live [3], .live [2], .live [1, 2, 3, 4, 5, 6, 0, 0], 2, 4⟩,
        some [3, 4]) :=
  (C16_disabled_pop_next_index_test
    ⟨false, 0, .live [3], .live [1], .live [1, 2, 3, 4, 5, 6, 0, 0], 2, 4⟩ [9, 9] [3] [1]
    [1, 2, 3, 4, 5, 6, 0, 0] 3 1 rfl rfl rfl rfl rfl rfl (by decide) (by decide) (by decide)
    (by decide) (by decide)).1

/-- Claim C17 (index invariant).  From a buffer registered with `slot_count ≥ 1`, in either
mode, every sequence of `RingBuffer_Push` and `RingBuffer_Pop` calls runs to completion and
ends in a state in which the write index and the read index of every lane are below
`slot_count`; the two index updates of the code (reset to `0` when `index + 1 ≥ slot_count`,
else `index + 1`, with and without the `uint16_t` temporary) equal
`(index + 1) mod slot_count`; and a pop with a null output pointer changes nothing. -/
theorem C17_index_invariant (old rb0 : s_ringbuffer_t) (pe : Bool) (level fifo dsize : Nat)
    (mw mr mb : Option Nat) (calls : List call_t)
    (hreg : RingBuffer_Register (some old) pe level fifo dsize mw mr mb
      = some (ringbuffer_error_ok, some rb0))
    (hlevel : level < 256) (hfifo : 1 ≤ fifo ∧ fifo < 256) (hdsize : dsize < 256)
    (hcalls : ∀ c ∈ calls, call_ok dsize c) :
    (∃ rb log, run rb0 [] calls = some (rb, log) ∧
      rb.priority_enable = pe ∧ rb.priority_level = level ∧ rb.buffer_fifo_size = fifo ∧
      ∀ k, k < lane_count rb →
        ∃ wv rv, load rb.w k = some wv ∧ load rb.r k = some rv ∧ wv < fifo ∧ rv < fifo) ∧
    (∀ i, i < fifo →
      (if (i + 1) % 65536 ≥ fifo then 0 else (i + 1) % 65536) = (i + 1) % fifo ∧
      (if i + 1 ≥ fifo then 0 else (i + 1) % 65536) = (i + 1) % fifo) ∧
    (∀ m, RingBuffer_Pop m none = some (ringbuffer_error_parameter, m, none)) := by
  have hwf := Register_well_formed old pe level fifo dsize mw mr mb rb0 hreg hlevel hfifo hdsize
  obtain ⟨rfl, -⟩ := Register_ok old pe level fifo dsize mw mr mb rb0 hreg
  refine ⟨?_, ?_, ?_⟩
  · obtain ⟨rb, log, hrun, hwf', hpe', hlv', hd', hf'⟩ := run_well_formed calls _ [] hwf hcalls
    simp only at hpe' hlv' hd' hf'
    refine ⟨rb, log, hrun, hpe', hlv', hf', ?_⟩
    intro k hk
    obtain ⟨ws, rs, buf, hw, hr, hb, hwl, hrl, hbl, hwi, hri, hl, hf, hd⟩ :=
      (well_formed_iff rb).mp hwf'
    have hkw : k < ws.length := by omega
    have hkr : k < rs.length := by omega
    have hwv := List.getElem?_eq_getElem hkw
    have hrv := List.getElem?_eq_getElem hkr
    refine ⟨ws[k], rs[k], by simp only [load, hw]; exact hwv, by simp only [load, hr]; exact hrv,
      ?_, ?_⟩
    · rw [← hf']; exact hwi _ (List.getElem?_mem hwv)
    · rw [← hf']; exact hri _ (List.getElem?_mem hrv)
  · intro i hi
    exact ⟨next_index_eq i fifo hi hfifo.2, next_index_eq' i fifo hi hfifo.2⟩
  · intro m
    cases m <;> rfl

/-- Witness for C17: one lane of three 2-byte slots, priority disabled; pushes with a lane
out of range, an oversized length and valid arguments, and pops in between. -/
theorem C17_index_invariant_witness :
    (∃ rb log,
      run ⟨false, 0, .live [0], .live [0], .live (List.replicate 6 0), 2, 3⟩ []
        [.pop [0, 0], .push 9 [1, 2] 2, .push 0 [1, 2, 3] 3, .pop [0, 0], .pop [0, 0],
         .push 0 [4] 1] = some (rb, log) ∧
      rb.priority_enable = false ∧ rb.priority_level = 0 ∧ rb.buffer_fifo_size = 3 ∧
      ∀ k, k < lane_count rb →
        ∃ wv rv, load rb.w k = some wv ∧ load rb.r k = some rv ∧ wv < 3 ∧ rv < 3) ∧
    (∀ i, i < 3 →
      (if (i + 1) % 65536 ≥ 3 then 0 else (i + 1) % 65536) = (i + 1) % 3 ∧
      (if i + 1 ≥ 3 then 0 else (i + 1) % 65536) = (i + 1) % 3) ∧
    (∀ m, RingBuffer_Pop m none = some (ringbuffer_error_parameter, m, none)) :=
  C17_index_invariant unregistered _ false 0 3 2 (some 0) (some 0) (some 0)
    [.pop [0, 0], .push 9 [1, 2] 2, .push 0 [1, 2, 3] 3, .pop [0, 0], .pop [0, 0],
     .push 0 [4] 1]
    (by decide) (by decide) (by decide) (by decide) (by decide)

/-- Claim C18 (producer and consumer own their index).  Whatever the handle, the arguments
and the code returned, in both modes: `RingBuffer_Push` leaves the block of read indices as
it was, and `RingBuffer_Pop` leaves the block of write indices and the backing store as
they were. -/
theorem C18_index_ownership (m : Option s_ringbuffer_t) (priority : Nat) (data : List Nat)
    (len : Nat) (out : Option (List Nat)) :
    (∀ e m', RingBuffer_Push m priority data len = some (e, m') →
      m'.map (fun rb => rb.r) = m.map (fun rb => rb.r)) ∧
    (∀ e m' out', RingBuffer_Pop m out = some (e, m', out') →
      m'.map (fun rb => rb.w) = m.map (fun rb => rb.w) ∧
      m'.map (fun rb => rb.pbuffer) = m.map (fun rb => rb.pbuffer)) := by
  constructor
  · intro e m' h
    unfold RingBuffer_Push at h
    split at h
    · simp at h; rw [← h.2]
    · next rb =>
      split at h
      · simp at h; rw [← h.2]
      · split at h
        · simp at h; rw [← h.2]
        · split at h
          · cases h1 : load rb.w 0 <;> simp [h1] at h
            cases h2 : load rb.r 0 <;> simp [h2] at h
            split_ifs at h
            all_goals first
              | (simp only [Option.some.injEq, Prod.mk.injEq] at h; rw [← h.2])
              | (simp only [Option.bind_eq_some] at h
                 obtain ⟨_, -, _, -, h⟩ := h
                 simp only [Option.some.injEq, Prod.mk.injEq] at h
                 rw [← h.2]; rfl)
          · split at h
            · simp at h; rw [← h.2]
            · cases h1 : load rb.w priority <;> simp [h1] at h
              cases h2 : load rb.r priority <;> simp [h2] at h
              split_ifs at h
              all_goals first
                | (simp only [Option.some.injEq, Prod.mk.injEq] at h; rw [← h.2])
                | (simp only [Option.bind_eq_some] at h
                   obtain ⟨_, -, _, -, h⟩ := h
                   simp only [Option.some.injEq, Prod.mk.injEq] at h
                   rw [← h.2]; rfl)
  · intro e m' out' h
    unfold RingBuffer_Pop at h
    split at h
    · simp at h; rw [← h.2.1]; exact ⟨rfl, rfl⟩
    · next rb =>
      split at h
      · simp at h; rw [← h.2.1]; exact ⟨rfl, rfl⟩
      · next o =>
        split at h
        · cases h1 : load rb.r 0 <;> simp [h1] at h
          cases h2 : load rb.w 0 <;> simp [h2] at h
          split_ifs at h
          all_goals first
            | (simp only [Option.some.injEq, Prod.mk.injEq] at h; rw [← h.2.1]
               exact ⟨rfl, rfl⟩)
            | (simp only [Option.bind_eq_some] at h
               obtain ⟨_, -, _, -, _, -, h⟩ := h
               simp only [Option.some.injEq, Prod.mk.injEq] at h
               rw [← h.2.1]; exact ⟨rfl, rfl⟩)
        · simp only [Option.bind_eq_bind, Option.bind_eq_some] at h
          obtain ⟨⟨rb', o'⟩, hscan, h⟩ := h
          simp only [Option.some.injEq, Prod.mk.injEq] at h
          obtain ⟨r', hr'⟩ := Pop_scan_frame rb o _ _ _ _ hscan
          rw [← h.2.1, hr']
          exact ⟨rfl, rfl⟩

/-- Witness for C18: an accepted push on lane 1 of two lanes, and the pop that follows. -/
theorem C18_index_ownership_witness :
    (some (ptr_t.live [0, 0]) = some (ptr_t.live [0, 0])) ∧
    (some (ptr_t.live [0, 1]) = some (ptr_t.live [0, 1]) ∧
      some (ptr_t.live [0, 0, 0, 0, 5, 0, 0, 0]) = some (ptr_t.live [0, 0, 0, 0, 5, 0, 0, 0])) :=
  ⟨(C18_index_ownership
      (some ⟨true, 2, .live [0, 0], .live [0, 0], .live [0, 0, 0, 0, 0, 0, 0, 0], 2, 2⟩)
      1 [5] 1 none).1 ringbuffer_error_ok
      (some ⟨true, 2, .live [0, 1], .live [0, 0], .live [0, 0, 0, 0, 5, 0, 0, 0], 2, 2⟩)
      (by decide),
   (C18_index_ownership
      (some ⟨true, 2, .live [0, 1], .live [0, 0], .live [0, 0, 0, 0, 5, 0, 0, 0], 2, 2⟩)
      0 [] 0 (some [9, 9])).2 ringbuffer_error_ok
      (some ⟨true, 2, .live [0, 1], .live [0, 1], .live [0, 0, 0, 0, 5, 0, 0, 0], 2, 2⟩)
      (some [5, 0]) (by decide)⟩

/-- Claim C19 (slot addressing stays inside the lane's partition).  On a well-formed Active
buffer, for every lane `k` below the lane count and every index `i` below `slot_count`:
the offset the code computes is exactly `(k * slot_count + i) * slot_size`, without 32-bit
wraparound; the slot range starting there lies inside the partition
`[k * slot_count * slot_size, (k + 1) * slot_count * slot_size)` of lane `k`, which lies
inside the backing store of `lane_count * slot_count * slot_size` bytes; the ranges of two
distinct (lane, index) pairs do not overlap; an accepted push to lane `k` at write index `i`
copies `len ≤ slot_size` bytes to that offset; and a pop that serves lane `k` at read index
`i` copies `slot_size` bytes from that offset. -/
theorem C19_slot_addressing (rb : s_ringbuffer_t) (k i : Nat) (hwf : well_formed rb)
    (hk : k < lane_count rb) (hi : i < rb.buffer_fifo_size) :
    buffer_offset rb k i = (k * rb.buffer_fifo_size + i) * rb.buffer_data_size ∧
    (k * rb.buffer_fifo_size * rb.buffer_data_size ≤ buffer_offset rb k i ∧
      buffer_offset rb k i + rb.buffer_data_size
        ≤ (k + 1) * rb.buffer_fifo_size * rb.buffer_data_size) ∧
    (k + 1) * rb.buffer_fifo_size * rb.buffer_data_size
      ≤ lane_count rb * rb.buffer_fifo_size * rb.buffer_data_size ∧
    (∃ buf, rb.pbuffer = .live buf ∧
      buf.length = lane_count rb * rb.buffer_fifo_size * rb.buffer_data_size) ∧
    (∀ k' i', k' < lane_count rb → i' < rb.buffer_fifo_size → (k', i') ≠ (k, i) →
      buffer_offset rb k i + rb.buffer_data_size ≤ buffer_offset rb k' i' ∨
      buffer_offset rb k' i' + rb.buffer_data_size ≤ buffer_offset rb k i) ∧
    (∀ priority data len rb', lane_of rb priority = k → load rb.w k = some i →
      RingBuffer_Push (some rb) priority data len = some (ringbuffer_error_ok, some rb') →
      len ≤ rb.buffer_data_size ∧
      memcpy_to rb.pbuffer (buffer_offset rb k i) data len = some rb'.pbuffer) ∧
    (∀ out e rb' out', rb.buffer_data_size ≤ out.length → load rb.r k = some i →
      RingBuffer_Pop (some rb) (some out) = some (e, some rb', some out') →
      load rb'.r k ≠ some i →
      (memcpy_from rb.pbuffer (buffer_offset rb k i) rb.buffer_data_size).bind (memcpy_out out)
        = some out') := by
  obtain ⟨ws, rs, buf, hw, hr, hb, hwl, hrl, hbl, hwi, hri, hl, hf, hd⟩ :=
    (well_formed_iff rb).mp hwf
  have hlc : lane_count rb < 256 := by
    unfold lane_count; split <;> omega
  -- the offset of any slot, without wraparound
  have hexact : ∀ k' i', k' < lane_count rb → i' < rb.buffer_fifo_size →
      buffer_offset rb k' i' = (i' + k' * rb.buffer_fifo_size) * rb.buffer_data_size := by
    intro k' i' hk' hi'
    exact Nat.mod_eq_of_lt (offset_lt i' k' _ _ hi' hf (by omega) hd)
  have hoff := hexact k i hk hi
  have hbnd := slot_in_bounds i k (k + 1) rb.buffer_fifo_size rb.buffer_data_size hi (by omega)
  have hpart : (k + 1) * rb.buffer_fifo_size * rb.buffer_data_size
      ≤ lane_count rb * rb.buffer_fifo_size * rb.buffer_data_size :=
    Nat.mul_le_mul_right _ (Nat.mul_le_mul_right _ hk)
  have hlow : k * rb.buffer_fifo_size * rb.buffer_data_size
      ≤ (i + k * rb.buffer_fifo_size) * rb.buffer_data_size :=
    Nat.mul_le_mul_right _ (by omega)
  refine ⟨by rw [hoff, Nat.add_comm], ⟨by rw [hoff]; exact hlow, by rw [hoff]; exact hbnd⟩,
    hpart, ⟨buf, hb, hbl⟩, ?_, ?_, ?_⟩
  · intro k' i' hk' hi' hne
    rw [hoff, hexact k' i' hk' hi']
    have hs : i' + k' * rb.buffer_fifo_size ≠ i + k * rb.buffer_fifo_size := by
      intro heq
      obtain ⟨h1, h2⟩ := slot_number_inj _ _ _ _ _ hi' hi heq
      exact hne (by rw [h1, h2])
    rcases Nat.lt_or_gt_of_ne hs with h | h
    · right
      have := Nat.mul_le_mul_right rb.buffer_data_size (Nat.succ_le_of_lt h)
      rw [Nat.succ_mul] at this
      exact this
    · left
      have := Nat.mul_le_mul_right rb.buffer_data_size (Nat.succ_le_of_lt h)
      rw [Nat.succ_mul] at this
      exact this
  · intro priority data len rb' hlane hwi' hpush
    obtain ⟨hlen, hdata, -, ws', rs', buf', wv, rv, hw', hr', hb', hwv, -, -, -, hrb'⟩ :=
      Push_ok_inv rb rb' priority data len hwf hpush
    rw [hw] at hw'; rw [hb] at hb'
    cases hw'; cases hb'
    rw [hlane] at hwv hrb'
    simp only [load, hw] at hwi'
    rw [hwv] at hwi'
    cases hwi'
    refine ⟨hlen, ?_⟩
    rw [hoff, hrb', hb]
    have : (i + k * rb.buffer_fifo_size) * rb.buffer_data_size + len ≤ buf.length := by
      rw [hbl]; omega
    simp [memcpy_to, hdata, this]
  · intro out e rb' out' hout hri' hpop hmoved
    simp only [load, hr] at hri'
    rcases Pop_wf_cases rb out rs buf hwf hr hb hout with ⟨e', hsame⟩ | ⟨j, rv, hj, hrv, hrlt, hserved⟩
    · rw [hsame] at hpop
      simp only [Option.some.injEq, Prod.mk.injEq] at hpop
      exfalso
      apply hmoved
      rw [← hpop.2.1]
      simp only [load, hr]
      exact hri'
    · rw [hserved] at hpop
      simp only [Option.some.injEq, Prod.mk.injEq] at hpop
      obtain ⟨-, hrb', hout'⟩ := hpop
      have hkj : k = j := by
        by_contra hne
        apply hmoved
        rw [← hrb']
        simp only [load]
        rw [List.getElem?_set_ne (Ne.symm hne)]
        exact hri'
      subst hkj
      rw [hri'] at hrv
      cases hrv
      rw [hoff, hb, ← hout']
      have h1 : (i + k * rb.buffer_fifo_size) * rb.buffer_data_size + rb.buffer_data_size
          ≤ buf.length := by rw [hbl]; omega
      have h2 : rb.buffer_data_size
          ≤ buf.length - (i + k * rb.buffer_fifo_size) * rb.buffer_data_size := by omega
      simp [memcpy_from, memcpy_out, h1, slot_at, List.length_take, List.length_drop,
        Nat.min_eq_left h2, hout]

/-- Witness for C19: lane 1, index 1 of two lanes of two 2-byte slots; the offset is 6. -/
theorem C19_slot_addressing_witness :
    buffer_offset ⟨true, 2, .live [0, 1], .live [0, 0], .live [0, 0, 0, 0, 5, 0, 0, 0], 2, 2⟩
      1 1 = (1 * 2 + 1) * 2 :=
  (C19_slot_addressing
    ⟨true, 2, .live [0, 1], .live [0, 0], .live [0, 0, 0, 0, 5, 0, 0, 0], 2, 2⟩ 1 1
    (by decide) (by decide) (by decide)).1

/-- Claim C20 (disabled mode ignores the lane argument).  With priority disabled, whatever
the state of the buffer, `data` and `len`, two calls of `RingBuffer_Push` that differ only
in the lane argument have the same outcome: the same code and the same resulting handle
structure.  No lane value is rejected. -/
theorem C20_disabled_ignores_lane (rb : s_ringbuffer_t) (a b : Nat) (data : List Nat)
    (len : Nat) (hpe : rb.priority_enable = false) :
    RingBuffer_Push (some rb) a data len = RingBuffer_Push (some rb) b data len := by
  simp [RingBuffer_Push, hpe]

/-- Witness for C20: lanes `0` and `255` on a fresh buffer of four 2-byte slots. -/
theorem C20_disabled_ignores_lane_witness :
    RingBuffer_Push (some ⟨false, 0, .live [0], .live [0], .live (List.replicate 8 0), 2, 4⟩)
        0 [1, 2] 2 =
      RingBuffer_Push (some ⟨false, 0, .live [0], .live [0], .live (List.replicate 8 0), 2, 4⟩)
        255 [1, 2] 2 :=
  C20_disabled_ignores_lane
    ⟨false, 0, .live [0], .live [0], .live (List.replicate 8 0), 2, 4⟩ 0 255 [1, 2] 2 rfl

end RingBuffer
